import Mathlib

/-!
Shallow embedding of the media-pipeline core (modules/dedup.py, modules/batch.py,
modules/sync_monitor.py, modules/exif_sorter.py, modules/workflow.py) and proofs
about the claims on its specification.

Modelling conventions:
* SQLite tables are Lean lists of records; `UPDATE ... WHERE` is a `List.map`
  guarded by the WHERE predicate, `SELECT ... LIMIT 1` is a `find?` or a fold.
* The filesystem is a list of existing file paths; `shutil.move` removes the
  source path and adds the destination path.
* External boundaries (the Syncthing daemon, EXIF extraction, `fromisoformat`,
  `stat`) are parameters: functions or `Except` values supplied to the
  operations, mirroring the exceptions the Python client can raise.
* Python floats for completion percentages are modelled as rationals.
* Timestamps are opaque strings (or naturals for `created_at` ordering)
  supplied as parameters, since the code only stores and compares them.
-/

namespace MediaPipeline

/-- File lifecycle statuses (dedup.py / batch.py constants). -/
inductive FileStatus
  | new
  | unique
  | duplicate
  | error
  | batched
  | synced
  | sorted
  deriving DecidableEq, Repr

/-- Batch lifecycle statuses (batch.py constants). -/
inductive BatchStatus
  | pending
  | syncing
  | synced
  | sorting
  | sorted
  | error
  deriving DecidableEq, Repr

/-- The TEXT stored in the `status` column for a batch (batch.py constants). -/
def statusText : BatchStatus → String
  | .pending => "PENDING"
  | .syncing => "SYNCING"
  | .synced => "SYNCED"
  | .sorting => "SORTING"
  | .sorted => "SORTED"
  | .error => "ERROR"

/-- `status.lower()` as used in the guard message. -/
def status_lower : BatchStatus → String
  | .pending => "pending"
  | .syncing => "syncing"
  | .synced => "synced"
  | .sorting => "sorting"
  | .sorted => "sorted"
  | .error => "error"

/-- A row of the `files` table
(`files(path, size, ctime, mtime, sha256, status, batch_id, target_path, exif_datetime, error)`). -/
structure FileRec where
  rowid : Nat
  path : String
  size : Option Int
  ctime : Int
  mtime : Int
  sha256 : Option String
  status : FileStatus
  batchId : Option Nat
  targetPath : Option String
  exifDatetime : Option String
  error : Option String
  deriving DecidableEq, Repr

/-- A row of the `batches` table
(`batches(id, name, size_bytes, file_count, status, created_at, synced_at, sorted_at, manifest_path)`).
`createdAt` is a natural so that `ORDER BY datetime(created_at)` is numeric order. -/
structure BatchRec where
  id : Nat
  name : String
  sizeBytes : Int
  fileCount : Nat
  status : BatchStatus
  createdAt : Nat
  syncedAt : Option String
  sortedAt : Option String
  manifestPath : String
  deriving DecidableEq, Repr

/-- The relational store: the `files` and `batches` tables, rows in rowid order. -/
structure DB where
  files : List FileRec
  batches : List BatchRec
  deriving DecidableEq, Repr

/-- `SELECT ... FROM files WHERE path = ?` (first match). -/
def get_file (db : DB) (p : String) : Option FileRec :=
  db.files.find? (fun r => r.path = p)

/-- `SELECT ... FROM batches WHERE name = ?` (first match). -/
def get_batch_by_name (db : DB) (name : String) : Option BatchRec :=
  db.batches.find? (fun b => b.name = name)

/-- `UPDATE batches SET ... WHERE name = ?`. -/
def update_batch_by_name (db : DB) (name : String) (f : BatchRec → BatchRec) : DB :=
  { db with batches := db.batches.map (fun b => if b.name = name then f b else b) }

/-- `UPDATE files SET ... WHERE <pred>`. -/
def update_files_where (db : DB) (pred : FileRec → Bool) (f : FileRec → FileRec) : DB :=
  { db with files := db.files.map (fun r => if pred r then f r else r) }

/-- The rowid SQLite assigns to the next inserted `files` row (max existing + 1). -/
def next_file_rowid (db : DB) : Nat :=
  db.files.foldl (fun m r => max m r.rowid) 0 + 1

/-- The id SQLite assigns to the next inserted `batches` row (max existing + 1). -/
def next_batch_id (db : DB) : Nat :=
  db.batches.foldl (fun m b => max m b.id) 0 + 1

/-- Existing regular files, by absolute path.  `shutil.move` and `write_text`
update this list; directories are not modelled. -/
abbrev FS := List String

/-- `shutil.move(src, dst)`: afterwards `dst` exists and `src` does not. -/
def fs_move (fs : FS) (src dst : String) : FS :=
  dst :: fs.erase src

/-- `pre` is a leading substring of `s` (structural, kernel-computable). -/
def starts_with (pre s : String) : Bool :=
  pre.data.isPrefixOf s.data

/-- Drop the first `n` characters of `s`. -/
def string_drop (s : String) (n : Nat) : String :=
  String.mk (s.data.drop n)

/-- Last component of a path (`Path.name`). -/
def base_name (p : String) : String :=
  String.mk ((p.data.reverse.takeWhile (fun c => c ≠ '/')).reverse)

/-! ## modules/batch.py — BatchService -/

/-- A candidate row from `_fetch_candidates`
(`SELECT path, size, sha256 FROM files WHERE status = UNIQUE AND (batch_id IS NULL OR batch_id = 0) ORDER BY path`). -/
structure Candidate where
  path : String
  size : Option Int
  sha256 : Option String
  deriving DecidableEq, Repr

/-- A candidate after `_normalize_candidate` set `row["size"]` to a
non-negative integer ( either the positive stored size or `stat().st_size`). -/
structure NCand where
  path : String
  size : Nat
  sha256 : Option String
  deriving DecidableEq, Repr

/-- An entry of `BatchCreationResult.files` (`BatchFileRecord`). -/
structure BatchFileRecord where
  sourcePath : String
  batchPath : String
  relativePath : String
  size : Nat
  sha256 : Option String
  deriving DecidableEq, Repr

/-- `BatchCreationResult` exactly as declared in batch.py: note there is no
`blocking_status` and no `blocking_batch_id` field. -/
structure BatchCreationResult where
  created : Bool
  batchId : Option Nat := none
  batchName : Option String := none
  fileCount : Nat := 0
  sizeBytes : Nat := 0
  manifestPath : Option String := none
  createdAt : Option Nat := none
  files : List BatchFileRecord := []
  reason : Option String := none
  blockingBatch : Option String := none
  deriving DecidableEq, Repr

/-- Configuration of `BatchService.__init__` after normalisation.
`nameOf` is the `naming_pattern.format(index=i)` rendering. -/
structure BatchConfig where
  sourceDir : String
  batchDir : String
  maxSizeBytes : Nat
  selectionMode : String
  maxFiles : Nat
  allowParallel : Bool
  nameOf : Nat → String

/-- `_to_bytes`: gigabytes to bytes, clamped at zero (`int(x * 1024 ** 3)`). -/
def to_bytes (maxSizeGb : Rat) : Nat :=
  if maxSizeGb ≤ 0 then 0 else (Int.toNat ⌊maxSizeGb * (1073741824 : Rat)⌋)

/-- `__init__` normalisation of `selection_mode`. -/
def normalize_mode (mode : String) : String :=
  let m := mode.trim.toLower
  if m = "size" ∨ m = "files" ∨ m = "count" then m else "size"

/-- `_normalize_candidate`: keep a positive stored size, otherwise fall back to
`stat().st_size` (`stat p = none` models `FileNotFoundError`, the row is
dropped). -/
def normalize_candidate (stat : String → Option Nat) (row : Candidate) : Option NCand :=
  match row.size with
  | some v =>
    if v > 0 then some { path := row.path, size := v.toNat, sha256 := row.sha256 }
    else
      match stat row.path with
      | some s => some { path := row.path, size := s, sha256 := row.sha256 }
      | none => none
  | none =>
    match stat row.path with
    | some s => some { path := row.path, size := s, sha256 := row.sha256 }
    | none => none

/-- The running state and loop of `_select_within_limit`.  A Python `break`
returns `selected` as accumulated; `continue` recurses on the tail. -/
def select_go (stat : String → Option Nat) (limitBytes limitFiles : Nat) :
    List Candidate → List NCand → Nat → List NCand
  | [], selected, _ => selected
  | row :: rest, selected, runningSize =>
    match normalize_candidate stat row with
    | none => select_go stat limitBytes limitFiles rest selected runningSize
    | some n =>
      if limitFiles ≠ 0 ∧ limitFiles ≤ selected.length then selected
      else
        if limitBytes ≠ 0 ∧ limitBytes < runningSize + n.size then
          if selected ≠ [] then selected
          else if limitBytes < n.size then
            -- oversized single file: warned and skipped
            select_go stat limitBytes limitFiles rest selected runningSize
          else
            let selected' := selected ++ [n]
            if limitFiles ≠ 0 ∧ limitFiles ≤ selected'.length then selected'
            else select_go stat limitBytes limitFiles rest selected' (runningSize + n.size)
        else
          let selected' := selected ++ [n]
          if limitFiles ≠ 0 ∧ limitFiles ≤ selected'.length then selected'
          else select_go stat limitBytes limitFiles rest selected' (runningSize + n.size)

/-- `_select_within_limit`: byte budget applies in `size` mode, the file-count
limit in `files`/`count` mode. -/
def select_within_limit (cfg : BatchConfig) (stat : String → Option Nat)
    (candidates : List Candidate) : List NCand :=
  let limitBytes := if cfg.selectionMode = "size" then cfg.maxSizeBytes else 0
  let limitFiles := if cfg.selectionMode = "files" ∨ cfg.selectionMode = "count" then cfg.maxFiles else 0
  select_go stat limitBytes limitFiles candidates [] 0

/-- Batch statuses the exclusivity guard treats as non-terminal. -/
def nonTerminalStatus (s : BatchStatus) : Bool :=
  s = .pending ∨ s = .syncing ∨ s = .synced ∨ s = .sorting ∨ s = .error

/-- Earliest row by `created_at` (first on ties, as delivered by the scan). -/
def min_by_created : List BatchRec → Option BatchRec
  | [] => none
  | b :: bs =>
    match min_by_created bs with
    | none => some b
    | some m => if b.createdAt ≤ m.createdAt then some b else some m

/-- `_active_batch_guard`: the earliest non-terminal batch, if any
(`SELECT name, status FROM batches WHERE status IN (...) ORDER BY datetime(created_at) ASC LIMIT 1`). -/
def active_batch_guard (db : DB) : Option (String × BatchStatus) :=
  (min_by_created (db.batches.filter (fun b => nonTerminalStatus b.status))).map
    (fun b => (b.name, b.status))

/-- `path.relative_to(source_dir)`, falling back to `path.name`. -/
def relative_path (sourceDir : String) (p : String) : String :=
  if starts_with (sourceDir ++ "/") p then string_drop p (sourceDir ++ "/").data.length
  else base_name p

/-- `ORDER BY path`: the candidate rows sorted ascending by path. -/
def sort_candidates (l : List Candidate) : List Candidate :=
  l.insertionSort (fun a b => a.path.data ≤ b.path.data)

/-- `_fetch_candidates`: UNIQUE files without a batch, ordered by path. -/
def fetch_candidates (db : DB) : List Candidate :=
  sort_candidates
    ((db.files.filter
        (fun r => r.status = .unique ∧ (r.batchId = none ∨ r.batchId = some 0))).map
      (fun r => { path := r.path, size := r.size, sha256 := r.sha256 }))

/-- `_batch_exists`: a row with that name, or the directory already on disk.
The directory is modelled as any file under `batchDir/name/`. -/
def batch_exists (cfg : BatchConfig) (db : DB) (fs : FS) (name : String) : Bool :=
  db.batches.any (fun b => b.name = name) ∨
    fs.any (fun p => starts_with (cfg.batchDir ++ "/" ++ name ++ "/") p)

/-- The index search of `_generate_batch_name`, with enough fuel to cover every
taken name; the fallback candidate is returned only if every probed name is
taken, which cannot happen for an injective pattern. -/
def generate_go (cfg : BatchConfig) (db : DB) (fs : FS) : Nat → Nat → String
  | 0, i => cfg.nameOf i
  | fuel + 1, i =>
    if batch_exists cfg db fs (cfg.nameOf i) then generate_go cfg db fs fuel (i + 1)
    else cfg.nameOf i

/-- `_generate_batch_name`: first index (from 1) whose name is unused. -/
def generate_batch_name (cfg : BatchConfig) (db : DB) (fs : FS) : String :=
  generate_go cfg db fs (db.batches.length + fs.length + 1) 1

/-- Accumulator of the move loop in `create_batch`. -/
structure MoveAcc where
  fs : FS
  records : List BatchFileRecord
  total : Nat

/-- One iteration of the move loop: skip a vanished file, otherwise move it
into the batch directory and record it. -/
def move_step (cfg : BatchConfig) (batchPath : String) (acc : MoveAcc) (n : NCand) : MoveAcc :=
  if acc.fs.contains n.path then
    let rel := relative_path cfg.sourceDir n.path
    let dest := batchPath ++ "/" ++ rel
    { fs := fs_move acc.fs n.path dest
      records := acc.records ++ [{ sourcePath := n.path, batchPath := dest,
                                   relativePath := rel, size := n.size, sha256 := n.sha256 }]
      total := acc.total + n.size }
  else acc

/-- `INSERT INTO batches (...) VALUES (..., PENDING, created_at, NULL, NULL, manifest)`. -/
def insert_batch (db : DB) (name : String) (sizeBytes : Nat) (fileCount : Nat)
    (createdAt : Nat) (manifestPath : String) : Nat × DB :=
  let rowid := next_batch_id db
  (rowid,
    { db with batches := db.batches ++
        [{ id := rowid, name := name, sizeBytes := sizeBytes, fileCount := fileCount,
           status := .pending, createdAt := createdAt, syncedAt := none, sortedAt := none,
           manifestPath := manifestPath }] })

/-- `_update_files`: each moved file becomes BATCHED at its new path. -/
def update_moved_files (db : DB) (records : List BatchFileRecord) (batchId : Nat) : DB :=
  records.foldl
    (fun acc record =>
      update_files_where acc (fun r => r.path = record.sourcePath)
        (fun r => { r with path := record.batchPath, size := some (record.size : Int),
                           status := .batched, batchId := some batchId, targetPath := none }))
    db

/-- `BatchService.create_batch`.  `stat` models `Path.stat().st_size`,
`createdAt` the `datetime.now` timestamp.  Returns the result plus the updated
store and filesystem. -/
def create_batch (cfg : BatchConfig) (stat : String → Option Nat) (createdAt : Nat)
    (db : DB) (fs : FS) : BatchCreationResult × DB × FS :=
  let blocked : Option (String × BatchStatus) :=
    if cfg.allowParallel then none else active_batch_guard db
  match blocked with
  | some (name, st) =>
    -- the guard message text carries the name and lower-cased status
    ({ created := false,
       reason := some ("Batch " ++ name ++ " is still " ++ status_lower st),
       blockingBatch := some name }, db, fs)
  | none =>
    let candidates := fetch_candidates db
    let selected := select_within_limit cfg stat candidates
    if selected = [] then ({ created := false }, db, fs)
    else
      let batchName := generate_batch_name cfg db fs
      let batchPath := cfg.batchDir ++ "/" ++ batchName
      let acc := selected.foldl (move_step cfg batchPath) { fs := fs, records := [], total := 0 }
      if acc.records = [] then ({ created := false }, db, acc.fs)
      else
        let manifestPath := batchPath ++ "/manifest.json"
        let fs1 := manifestPath :: acc.fs
        let (rowid, db1) :=
          insert_batch db batchName acc.total acc.records.length createdAt manifestPath
        let db2 := update_moved_files db1 acc.records rowid
        ({ created := true, batchId := some rowid, batchName := some batchName,
           fileCount := acc.records.length, sizeBytes := acc.total,
           manifestPath := some manifestPath, createdAt := some createdAt,
           files := acc.records }, db2, fs1)

/-! ## modules/dedup.py — DedupService -/

/-- `stat()` metadata recorded before hashing. -/
structure FileMeta where
  size : Int
  ctime : Int
  mtime : Int
  deriving DecidableEq, Repr

/-- `HASHED_STATUSES`. -/
def hashedStatus (s : FileStatus) : Bool :=
  s = .unique ∨ s = .duplicate

/-- `INSERT INTO files(path, size, ctime, mtime, status) VALUES(..., NEW)`. -/
def insert_new_file (db : DB) (p : String) (m : FileMeta) : DB :=
  { db with files := db.files ++
      [{ rowid := next_file_rowid db, path := p, size := some m.size, ctime := m.ctime,
         mtime := m.mtime, sha256 := none, status := .new, batchId := none,
         targetPath := none, exifDatetime := none, error := none }] }

/-- `UPDATE files SET size, ctime, mtime, status = NEW, error = NULL WHERE path = ?`. -/
def reset_file_new (db : DB) (p : String) (m : FileMeta) : DB :=
  update_files_where db (fun r => r.path = p)
    (fun r => { r with size := some m.size, ctime := m.ctime, mtime := m.mtime,
                       status := .new, error := none })

/-- `UPDATE files SET status = ERROR, error = ? WHERE path = ?` (hash failure). -/
def set_file_error (db : DB) (p : String) (msg : String) : DB :=
  update_files_where db (fun r => r.path = p)
    (fun r => { r with status := .error, error := some msg })

/-- `UPDATE files SET sha256, size, ctime, mtime, status, error = NULL WHERE path = ?`. -/
def set_file_hashed (db : DB) (p : String) (digest : String) (m : FileMeta)
    (st : FileStatus) : DB :=
  update_files_where db (fun r => r.path = p)
    (fun r => { r with sha256 := some digest, size := some m.size, ctime := m.ctime,
                       mtime := m.mtime, status := st, error := none })

/-- Smallest row by path among rows (first on ties; paths are a primary key). -/
def min_by_path : List FileRec → Option FileRec
  | [] => none
  | r :: rs =>
    match min_by_path rs with
    | none => some r
    | some m => if r.path.data ≤ m.path.data then some r else some m

/-- `SELECT path, status FROM files WHERE sha256 = ? AND path != ? ORDER BY path LIMIT 1`. -/
def find_duplicate (db : DB) (digest : String) (p : String) : Option FileRec :=
  min_by_path (db.files.filter (fun r => r.sha256 = some digest ∧ r.path ≠ p))

/-- The body of the second loop of `_process_files` for a single discovered
path.  `stat p = none` models the `FileNotFoundError` skip, `hash p = .error e`
the hashing failure path. -/
def process_one (stat : String → Option FileMeta) (hash : String → Except String String)
    (db : DB) (p : String) : DB :=
  let skip :=
    match get_file db p with
    | some r => hashedStatus r.status
    | none => false
  if skip then db
  else
    match stat p with
    | none => db
    | some m =>
      let db1 :=
        match get_file db p with
        | none => insert_new_file db p m
        | some _ => reset_file_new db p m
      match hash p with
      | .error e => set_file_error db1 p e
      | .ok digest =>
        match find_duplicate db1 digest p with
        | some d =>
          let db2 :=
            if d.status ≠ .unique then
              update_files_where db1 (fun r => r.path = d.path)
                (fun r => { r with status := .unique })
            else db1
          set_file_hashed db2 p digest m .duplicate
        | none => set_file_hashed db1 p digest m .unique

/-- The second loop of `_process_files` over the discovered paths (the first
loop only derives progress counters and performs no store writes). -/
def process_files (stat : String → Option FileMeta) (hash : String → Except String String)
    (db : DB) (paths : List String) : DB :=
  paths.foldl (process_one stat hash) db

/-- `_discover_files` sorts the directory listing by path; the scan therefore
processes any presentation order identically. -/
def sort_paths (l : List String) : List String :=
  l.insertionSort (fun a b => a.data ≤ b.data)

/-- One dedup run over the discovered source files. -/
def dedup_run (stat : String → Option FileMeta) (hash : String → Except String String)
    (db : DB) (discovered : List String) : DB :=
  process_files stat hash db (sort_paths discovered)

/-! ## modules/sync_monitor.py — SyncService -/

/-- Return type of `SyncService.start`. -/
structure SyncStartResult where
  batch : String
  started : Bool
  status : BatchStatus
  deriving DecidableEq, Repr

/-- Return type of `SyncService.status`.  The raw `syncthing` diagnostic
payload is pass-through data and is not modelled. -/
structure SyncStatusResult where
  batch : String
  status : BatchStatus
  progress : Rat
  syncedAt : Option String
  detail : Option String := none
  deriving DecidableEq, Repr

/-- `SyncService.start`: no-op on SYNCED/SYNCING, otherwise require the batch
directory (modelled as any file under it) and flip the row to SYNCING.  `none`
models the `ValueError` / `FileNotFoundError` raises.  The rescan trigger and
the settle sleep touch no persistent state. -/
def sync_start (batchDir : String) (fs : FS) (db : DB) (name : String) :
    Option (SyncStartResult × DB) :=
  match get_batch_by_name db name with
  | none => none
  | some b =>
    if b.status = .synced then some ({ batch := name, started := false, status := b.status }, db)
    else if b.status = .syncing then
      some ({ batch := name, started := false, status := b.status }, db)
    else
      let dirPath := batchDir ++ "/" ++ name
      if fs.any (fun p => starts_with (dirPath ++ "/") p ∨ p = dirPath) then
        let db1 := update_batch_by_name db name
          (fun r => { r with status := .syncing, syncedAt := none })
        some ({ batch := name, started := true, status := .syncing }, db1)
      else none

/-- `_mark_batch_synced`: stamp the batch SYNCED at `t` and promote its
BATCHED files to SYNCED (`status IN (BATCHED, SYNCED)` is set to SYNCED). -/
def mark_batch_synced (db : DB) (name : String) (batchId : Nat) (t : String) : DB :=
  let db1 := update_batch_by_name db name
    (fun r => { r with status := .synced, syncedAt := some t })
  update_files_where db1
    (fun r => r.batchId = some batchId ∧ (r.status = .batched ∨ r.status = .synced))
    (fun r => { r with status := .synced })

/-- `SyncService.status`.  `daemon` is the outcome of
`folder_completion` (`.error e` models a raised `SyncthingAPIError`), `t` the
timestamp used if the batch completes.  `none` models the unknown-batch
`ValueError`. -/
def sync_status (batchDir : String) (fs : FS) (daemon : Except String Rat) (t : String)
    (db : DB) (name : String) : Option (SyncStatusResult × DB) :=
  match get_batch_by_name db name with
  | none => none
  | some b =>
    if b.status = .synced then
      some ({ batch := name, status := b.status, progress := 100, syncedAt := b.syncedAt }, db)
    else
      let dirPath := batchDir ++ "/" ++ name
      if ¬ fs.any (fun p => starts_with (dirPath ++ "/") p ∨ p = dirPath) then
        some ({ batch := name, status := b.status, progress := 0, syncedAt := b.syncedAt }, db)
      else
        let queried : Rat × Option String :=
          match daemon with
          | .ok completion => (completion, none)
          | .error e => (0, some e)
        let progress := queried.1
        let detail := queried.2
        if 100 ≤ progress then
          let db1 := mark_batch_synced db name b.id t
          some ({ batch := name, status := .synced, progress := 100,
                  syncedAt := some t, detail := detail }, db1)
        else
          some ({ batch := name, status := b.status, progress := progress,
                  syncedAt := b.syncedAt, detail := detail }, db)

/-! ## modules/exif_sorter.py — SortService -/

/-- Index of the last `.` in a name (`str.rfind`), scanning left to right. -/
def last_dot_go : List Char → Nat → Option Nat → Option Nat
  | [], _, acc => acc
  | c :: rest, i, acc => last_dot_go rest (i + 1) (if c = '.' then some i else acc)

/-- `PurePath.stem`: the final component without its extension. -/
def py_stem (name : String) : String :=
  let cs := name.toList
  match last_dot_go cs 0 none with
  | some i => if 0 < i ∧ i < cs.length - 1 then String.mk (cs.take i) else name
  | none => name

/-- `PurePath.suffix`: the extension of the final component, with its dot. -/
def py_suffix (name : String) : String :=
  let cs := name.toList
  match last_dot_go cs 0 none with
  | some i => if 0 < i ∧ i < cs.length - 1 then String.mk (cs.drop i) else ""
  | none => ""

/-- A decimal digit character. -/
def dec_digit : Nat → Char
  | 0 => '0'
  | 1 => '1'
  | 2 => '2'
  | 3 => '3'
  | 4 => '4'
  | 5 => '5'
  | 6 => '6'
  | 7 => '7'
  | 8 => '8'
  | _ => '9'

/-- Decimal digit list of a natural (fuel-based; `n + 1` fuel suffices). -/
def dec_chars : Nat → Nat → List Char
  | 0, _ => []
  | fuel + 1, n => if n < 10 then [dec_digit n] else dec_chars fuel (n / 10) ++ [dec_digit (n % 10)]

/-- Decimal rendering of the collision index (the f-string `{index}` field). -/
def dec_str (n : Nat) : String :=
  String.mk (dec_chars (n + 1) n)

/-- A destination path split as directory part and final component, so that
`with_stem` can rewrite the stem. -/
structure DPath where
  dir : String
  fname : String
  deriving DecidableEq, Repr

/-- The full path string of a `DPath`. -/
def DPath.render (p : DPath) : String :=
  p.dir ++ "/" ++ p.fname

/-- `Path.with_stem(new)`: replace the stem, keep the suffix. -/
def with_stem (p : DPath) (stem : String) : DPath :=
  { p with fname := stem ++ py_suffix p.fname }

/-- The candidate tried at index `i` by `_resolve_collision`
(`destination.with_stem(f"(stem)_(index)")`). -/
def coll_cand (dest : DPath) (i : Nat) : DPath :=
  with_stem dest (py_stem dest.fname ++ "_" ++ dec_str i)

/-- The search loop of `_resolve_collision`, probing indices upward while the
candidate exists; the fuel always suffices because candidate names are
pairwise distinct. -/
def resolve_go (fs : FS) (dest : DPath) : Nat → Nat → DPath
  | 0, i => coll_cand dest i
  | fuel + 1, i =>
    let c := coll_cand dest i
    if fs.contains c.render then resolve_go fs dest fuel (i + 1) else c

/-- `_resolve_collision`: first free suffixed name, starting at `_1`. -/
def resolve_collision (fs : FS) (dest : DPath) : DPath :=
  resolve_go fs dest (fs.length + 1) 1

/-- Lines 112–117 of `SortService.start`: keep the computed destination unless
it exists and is a different file, in which case resolve the collision. -/
def final_destination (fs : FS) (srcPath : String) (dest : DPath) : DPath :=
  if fs.contains dest.render then
    if srcPath ≠ dest.render then resolve_collision fs dest else dest
  else dest

/-- A capture timestamp: the calendar fields the folder pattern consumes plus
its `isoformat()` rendering as stored in the `exif_datetime` column. -/
structure DT where
  year : Nat
  month : Nat
  day : Nat
  iso : String
  deriving DecidableEq, Repr

/-- Configuration and external boundaries of `SortService`: `parseIso` models
`datetime.fromisoformat` (plus the UTC default), `exifOf` models
`extract_capture_datetime`, `mtimeOf` models `stat().st_mtime` (`none` is
`FileNotFoundError`), `folderPattern` renders `folder_pattern.format(...)`. -/
structure SortEnv where
  batchDir : String
  sortedDir : String
  folderPattern : Nat → Nat → Nat → String
  exifFallback : Bool
  parseIso : String → Option DT
  exifOf : String → Option DT
  mtimeOf : String → Option DT

/-- `_capture_datetime`: stored timestamp first (ignored when NULL or empty or
unparseable), then embedded EXIF, then—only with the fallback enabled—the
filesystem modification time. -/
def capture_datetime (env : SortEnv) (p : String) (stored : Option String) : Option DT :=
  let fromStored : Option DT :=
    match stored with
    | some s => if s = "" then none else env.parseIso s
    | none => none
  match fromStored with
  | some d => some d
  | none =>
    match env.exifOf p with
    | some c => some c
    | none => if env.exifFallback then env.mtimeOf p else none

/-- `_determine_destination`: capture date to dated directory under the sorted
root, keeping the base name. -/
def determine_destination (env : SortEnv) (p : String) (stored : Option String) :
    Option (DPath × DT) :=
  (capture_datetime env p stored).map
    (fun capture =>
      ({ dir := env.sortedDir ++ "/" ++ env.folderPattern capture.year capture.month capture.day,
         fname := base_name p }, capture))

/-- File statuses `SortService.start` treats as ready for sorting. -/
def sortReady (s : FileStatus) : Bool :=
  s = .batched ∨ s = .synced ∨ s = .sorted

/-- Return type of `SortService.start`. -/
structure SortResult where
  batch : String
  sortedFiles : Nat
  skippedFiles : Nat
  started : Bool
  deriving DecidableEq, Repr

/-- State carried through the per-file loop of `SortService.start`. -/
structure SortAcc where
  db : DB
  fs : FS
  sortedCount : Nat
  skipped : Nat

/-- One iteration of the per-file loop of `SortService.start`. -/
def sort_file_step (env : SortEnv) (acc : SortAcc) (f : FileRec) : SortAcc :=
  if ¬ sortReady f.status then { acc with skipped := acc.skipped + 1 }
  else if ¬ acc.fs.contains f.path then { acc with skipped := acc.skipped + 1 }
  else
    match determine_destination env f.path f.exifDatetime with
    | none => { acc with skipped := acc.skipped + 1 }
    | some (dest, capture) =>
      let destF := final_destination acc.fs f.path dest
      let fs1 := fs_move acc.fs f.path destF.render
      let db1 := update_files_where acc.db (fun r => r.rowid = f.rowid)
        (fun r =>
          { r with path := destF.render, targetPath := some destF.render, status := .sorted,
                   exifDatetime :=
                     match r.exifDatetime with
                     | some s => some s
                     | none => some capture.iso })
      { db := db1, fs := fs1, sortedCount := acc.sortedCount + 1, skipped := acc.skipped }

/-- `SortService.start`: no-op when already SORTED; otherwise stamp SORTING,
process each file of the batch best-effort, then stamp SORTED at `t`
regardless of skips.  `none` models the unknown-batch `ValueError`. -/
def sort_start (env : SortEnv) (t : String) (db : DB) (fs : FS) (name : String) :
    Option (SortResult × DB × FS) :=
  match get_batch_by_name db name with
  | none => none
  | some b =>
    if b.status = .sorted then
      some ({ batch := name, sortedFiles := 0, skippedFiles := 0, started := false }, db, fs)
    else
      let db1 := update_batch_by_name db name
        (fun r => { r with status := .sorting, sortedAt := none })
      let rows := db1.files.filter (fun f => f.batchId = some b.id)
      let acc := rows.foldl (sort_file_step env) { db := db1, fs := fs, sortedCount := 0, skipped := 0 }
      let db2 := update_batch_by_name acc.db name
        (fun r => { r with status := .sorted, sortedAt := some t })
      some ({ batch := name, sortedFiles := acc.sortedCount,
              skippedFiles := acc.skipped, started := true }, db2, acc.fs)

/-! ## modules/workflow.py — the batch / retry segment of `run_pipeline` -/

/-- A Python value stored in a step data dictionary. -/
inductive JVal where
  | null
  | bool (b : Bool)
  | num (n : Int)
  | str (s : String)
  | arr (entries : List (List (String × JVal)))
  deriving Repr

/-- An `Optional[str]` rendered into a dictionary. -/
def optStrJ : Option String → JVal
  | some s => .str s
  | none => .null

/-- An `Optional[int]` rendered into a dictionary. -/
def optNatJ : Option Nat → JVal
  | some n => .num n
  | none => .null

/-- `BatchFileRecord.to_dict`. -/
def BatchFileRecord.to_dict (r : BatchFileRecord) : List (String × JVal) :=
  [("source_path", .str r.sourcePath),
   ("batch_path", .str r.batchPath),
   ("relative_path", .str r.relativePath),
   ("size", .num r.size),
   ("sha256", optStrJ r.sha256)]

/-- `BatchCreationResult.to_dict` (batch.py lines 65–77): these are all the
keys the dictionary ever carries. -/
def BatchCreationResult.to_dict (r : BatchCreationResult) : List (String × JVal) :=
  [("created", .bool r.created),
   ("batch_id", optNatJ r.batchId),
   ("batch_name", optStrJ r.batchName),
   ("file_count", .num r.fileCount),
   ("size_bytes", .num r.sizeBytes),
   ("manifest_path", optStrJ r.manifestPath),
   ("created_at", optNatJ r.createdAt),
   ("files", .arr (r.files.map BatchFileRecord.to_dict)),
   ("reason", optStrJ r.reason),
   ("blocking_batch", optStrJ r.blockingBatch)]

/-- `dict.get(key)`: `none` when the key is absent. -/
def dict_get (d : List (String × JVal)) (k : String) : Option JVal :=
  (d.find? (fun kv => kv.1 = k)).map (fun kv => kv.2)

/-- `int(value)` applied to a dictionary value (`TypeError`/`ValueError` give
`none`). -/
def jval_to_int : JVal → Option Int
  | .num n => some n
  | .str s => s.toInt?
  | .bool b => some (if b then 1 else 0)
  | _ => none

/-- A `PipelineStepResult`. -/
structure PStep where
  name : String
  status : String
  message : Option String := none
  data : List (String × JVal) := []

/-- `run_batch` (workflow.py lines 143–157), non-exceptional path: wrap the
`BatchCreationResult` into a step whose data is its `to_dict`. -/
def run_batch_step (r : BatchCreationResult) : PStep :=
  { name := "batch",
    status := if r.created then "completed" else "skipped",
    message := if r.created then none else some "No eligible files for batching",
    data := r.to_dict }

/-- Lines 316–344 of `run_pipeline`: after the first batch step, look for
`blocking_status` / `blocking_batch_id` in its data and, when a fully-synced
batch blocks, sort it and retry the allocation.  `runSortF` and `runBatchF`
stand for `self.run_sort` and the retry `self.run_batch`. -/
def batch_phase (runSortF : Int → PStep) (runBatchF : Unit → PStep) (first : PStep) :
    List PStep :=
  let blockingData := first.data
  let bsIsSynced : Bool :=
    match dict_get blockingData "blocking_status" with
    | some (.str s) => s = "SYNCED"
    | _ => false
  let bid := dict_get blockingData "blocking_batch_id"
  let bidPresent : Bool :=
    match bid with
    | some .null => false
    | some _ => true
    | none => false
  if first.status = "skipped" ∧ bsIsSynced ∧ bidPresent then
    match bid.bind jval_to_int with
    | none => [first]
    | some tid =>
      let sortStep := runSortF tid
      if sortStep.status = "completed" ∨ sortStep.status = "skipped" then
        [first, sortStep, runBatchF ()]
      else [first, sortStep]
  else [first]

/-! ## Auxiliary definitions used by the statements -/

/-- Number of batches in a non-terminal status. -/
def count_non_terminal (db : DB) : Nat :=
  (db.batches.filter (fun b => nonTerminalStatus b.status)).length

/-- Total size of a selection. -/
def sum_sizes (l : List NCand) : Nat :=
  (l.map (fun n => n.size)).sum

/-- Position of a status along the `pending→syncing→synced→sorting→sorted`
chain (`error` sits outside the chain). -/
def status_rank : BatchStatus → Nat
  | .pending => 0
  | .syncing => 1
  | .synced => 2
  | .sorting => 3
  | .sorted => 4
  | .error => 5

/-- Numeric value of a digit character. -/
def digit_val (c : Char) : Nat :=
  c.toNat - 48

/-- Value of a decimal digit string. -/
def dec_val (cs : List Char) : Nat :=
  cs.foldl (fun a c => a * 10 + digit_val c) 0

/-- Smallest string of a list (first on ties). -/
def min_string : List String → Option String
  | [] => none
  | s :: rest =>
    match min_string rest with
    | none => some s
    | some m => if s.data ≤ m.data then some s else some m

/-- The paths of `L` whose content digest equals `v`. -/
def groupPaths (c : String → String) (L : List String) (v : String) : List String :=
  L.filter (fun q => c q = v)

/-- Invariant tying a dedup store state to the list `L` of already processed
paths, for content function `c`: every row is hashed, classified unique or
duplicate, and unique exactly when it is the least path of its content group. -/
def DedupInv (c : String → String) (L : List String) (db : DB) : Prop :=
  db.files.map (fun r => r.path) = L ∧
    ∀ r ∈ db.files, r.sha256 = some (c r.path) ∧
      (r.status = .unique ∨ r.status = .duplicate) ∧
      (r.status = .unique ↔ min_string (groupPaths c L (c r.path)) = some r.path)

/-- The row a dedup pass leaves behind for a freshly scanned path. -/
def hashedRec (db : DB) (p : String) (m : FileMeta) (digest : String)
    (st : FileStatus) : FileRec :=
  { rowid := next_file_rowid db, path := p, size := some m.size, ctime := m.ctime,
    mtime := m.mtime, sha256 := some digest, status := st, batchId := none,
    targetPath := none, exifDatetime := none, error := none }

/-! ## Concrete states for witnesses and counterexamples -/

/-- A file row with the given rowid, path, size, digest and status. -/
def mkFile (rowid : Nat) (p : String) (size : Int) (sha : Option String)
    (st : FileStatus) (batchId : Option Nat) : FileRec :=
  { rowid := rowid, path := p, size := some size, ctime := 0, mtime := 0, sha256 := sha,
    status := st, batchId := batchId, targetPath := none, exifDatetime := none, error := none }

/-- A batch row with the given id, name, status and creation time. -/
def mkBatch (id : Nat) (name : String) (st : BatchStatus) (createdAt : Nat) : BatchRec :=
  { id := id, name := name, sizeBytes := 0, fileCount := 0, status := st,
    createdAt := createdAt, syncedAt := none, sortedAt := none, manifestPath := "m" }

/-- Allocator configuration with a one-unit byte budget (scenario of C3). -/
def exCfg : BatchConfig :=
  { sourceDir := "/src", batchDir := "/batch", maxSizeBytes := 1, selectionMode := "size",
    maxFiles := 0, allowParallel := false, nameOf := fun i => "batch_" ++ dec_str i }

/-- Three unique candidate files of sizes 1, 1 and 5 (creation = path order). -/
def exDb3 : DB :=
  { files := [mkFile 1 "/src/a" 1 (some "ha") .unique none,
              mkFile 2 "/src/b" 1 (some "hb") .unique none,
              mkFile 3 "/src/c" 5 (some "hc") .unique none],
    batches := [] }

/-- The filesystem containing exactly the three candidate files. -/
def exFs3 : FS := ["/src/a", "/src/b", "/src/c"]

/-- A store whose only batch is already sorted. -/
def exDbSorted : DB :=
  { files := [],
    batches := [{ mkBatch 1 "b1" .sorted 0 with syncedAt := some "s", sortedAt := some "t" }] }

/-- The batch directory of `exDbSorted` on disk. -/
def exFsSorted : FS := ["/batches/b1/manifest.json"]

/-- A concrete sort environment: no stored-timestamp parses, one file with
embedded EXIF, modification times always available. -/
def exSortEnv : SortEnv :=
  { batchDir := "/b", sortedDir := "/sorted",
    folderPattern := fun y m d => dec_str y ++ "/" ++ dec_str m ++ "/" ++ dec_str d,
    exifFallback := false,
    parseIso := fun _ => none,
    exifOf := fun p => if p = "/b/b1/photo.jpg" then some ⟨2021, 5, 4, "2021-05-04"⟩ else none,
    mtimeOf := fun _ => none }

/-- A batch mid-sync with one sortable photo and one file without metadata. -/
def exDbSort : DB :=
  { files := [mkFile 1 "/b/b1/photo.jpg" 1 none .synced (some 1),
              mkFile 2 "/b/b1/notes.txt" 1 none .synced (some 1)],
    batches := [mkBatch 1 "b1" .synced 0] }

/-- Three source files, the first two byte-identical (scenario of C4). -/
def exFiles : List String := ["/s/f1", "/s/f2", "/s/f3"]

/-- Content digests: the first two files share a digest. -/
def exContent : String → String := fun p => if p = "/s/f3" then "u" else "d"

/-- Constant stat metadata for the scan. -/
def exMeta : String → FileMeta := fun _ => { size := 1, ctime := 0, mtime := 0 }

/-! ## Theorems -/

/-- Claim C1 (evidence for the code bug): `BatchCreationResult.to_dict` never
emits a `blocking_status` key, so the sort-and-retry branch of `run_pipeline`
(lines 316–344) can never fire: the batch phase always consists of the single
batch step, whatever `run_sort` and the retried `run_batch` would return. -/
theorem C1_retry_branch_dead (r : BatchCreationResult) (runSortF : Int → PStep)
    (runBatchF : Unit → PStep) :
    dict_get r.to_dict "blocking_status" = none ∧
      batch_phase runSortF runBatchF (run_batch_step r) = [run_batch_step r] := by
  have h : dict_get r.to_dict "blocking_status" = none := rfl
  refine ⟨h, ?_⟩
  have hdata : (run_batch_step r).data = r.to_dict := rfl
  simp [batch_phase, hdata, h]

/-- Claim C3 counterexample: with a 1-unit byte budget and unique files of
sizes 1, 1, 5 in creation order, the created batch does not contain the two
size-1 files: the second size-1 file is not selected at all. -/
theorem C3_counterexample :
    "/src/b" ∉ (create_batch exCfg (fun _ => none) 10 exDb3 exFs3).1.files.map
        (fun f => f.sourcePath) ∧
      (create_batch exCfg (fun _ => none) 10 exDb3 exFs3).1.files.map
        (fun f => f.sourcePath) ≠ ["/src/a", "/src/b"] := by
  constructor
  · decide
  · decide

/-- Claim C3 amended: with a 1-unit byte budget and unique files of sizes
1, 1, 5 in creation order, the first created batch contains exactly the first
size-1 file (adding the second would exceed the budget, so the loop stops). -/
theorem C3_amended_first_file_only :
    (create_batch exCfg (fun _ => none) 10 exDb3 exFs3).1.created = true ∧
      (create_batch exCfg (fun _ => none) 10 exDb3 exFs3).1.files.map
        (fun f => f.sourcePath) = ["/src/a"] ∧
      (create_batch exCfg (fun _ => none) 10 exDb3 exFs3).1.fileCount = 1 ∧
      (create_batch exCfg (fun _ => none) 10 exDb3 exFs3).1.sizeBytes = 1 := by
  refine ⟨?_, ?_, ?_, ?_⟩ <;> decide

/-- Claim C7: a daemon failure while querying completion is caught: `status`
returns progress 0 with the error message as `detail`, and the store — in
particular the batch status and synced timestamp — is unchanged. -/
theorem C7_daemon_error_degrades_reporting (batchDir : String) (fs : FS) (e : String)
    (t : String) (db : DB) (name : String) (b : BatchRec)
    (hb : get_batch_by_name db name = some b)
    (hns : b.status ≠ .synced)
    (hdir : fs.any (fun p => (starts_with (batchDir ++ "/" ++ name ++ "/") p ∨
      p = batchDir ++ "/" ++ name)) = true) :
    sync_status batchDir fs (.error e) t db name =
      some ({ batch := name, status := b.status, progress := 0,
              syncedAt := b.syncedAt, detail := some e }, db) := by
  unfold sync_status
  rw [hb]
  simp only [hns, if_false, hdir]
  norm_num

/-! ### Helper lemmas -/

theorem min_by_created_eq_none {l : List BatchRec} :
    min_by_created l = none ↔ l = [] := by
  cases l with
  | nil => simp [min_by_created]
  | cons b bs =>
    simp only [min_by_created]
    cases h : min_by_created bs
    · simp
    · simp only []
      constructor
      · intro hcontra
        split at hcontra <;> simp_all
      · intro hcontra
        simp at hcontra

theorem min_by_created_eq_of_all (b : BatchRec) :
    ∀ l : List BatchRec, l ≠ [] → (∀ x ∈ l, x = b) → min_by_created l = some b := by
  intro l
  induction l with
  | nil => intro h; exact absurd rfl h
  | cons x xs ih =>
    intro _ hall
    have hx : x = b := hall x (List.mem_cons_self x xs)
    by_cases hxs : xs = []
    · subst hxs; simp [min_by_created, hx]
    · have := ih hxs (fun y hy => hall y (List.mem_cons_of_mem x hy))
      simp [min_by_created, this, hx]

theorem update_files_where_batches (db : DB) (p : FileRec → Bool) (f : FileRec → FileRec) :
    (update_files_where db p f).batches = db.batches := rfl

theorem update_moved_files_batches (records : List BatchFileRecord) (batchId : Nat) :
    ∀ db : DB, (update_moved_files db records batchId).batches = db.batches := by
  induction records with
  | nil => intro db; rfl
  | cons r rs ih =>
    intro db
    simpa [update_moved_files, List.foldl_cons] using ih _

/-- `create_batch` when the exclusivity guard trips: structured blocked result,
nothing touched. -/
theorem create_batch_blocked (cfg : BatchConfig) (stat : String → Option Nat)
    (t : Nat) (db : DB) (fs : FS) (n : String) (s : BatchStatus)
    (hpar : cfg.allowParallel = false)
    (hg : active_batch_guard db = some (n, s)) :
    create_batch cfg stat t db fs =
      ({ created := false,
         reason := some ("Batch " ++ n ++ " is still " ++ status_lower s),
         blockingBatch := some n }, db, fs) := by
  unfold create_batch
  rw [hpar]
  simp [hg]

/-- The batches table after `create_batch`: unchanged, or one new PENDING row. -/
theorem create_batch_batches (cfg : BatchConfig) (stat : String → Option Nat)
    (t : Nat) (db : DB) (fs : FS) :
    (create_batch cfg stat t db fs).2.1.batches = db.batches ∨
      ∃ row : BatchRec, row.status = .pending ∧
        (create_batch cfg stat t db fs).2.1.batches = db.batches ++ [row] := by
  simp only [create_batch, insert_batch]
  split
  · exact Or.inl rfl
  · split
    · exact Or.inl rfl
    · split
      · exact Or.inl rfl
      · refine Or.inr ⟨_, ?_, by rw [update_moved_files_batches]⟩
        rfl

theorem count_non_terminal_append_pending (db : DB) (row : BatchRec)
    (h : row.status = .pending) (l : List BatchRec) (hl : db.batches = l) :
    ((DB.mk db.files (l ++ [row])).batches.filter
      (fun b => nonTerminalStatus b.status)).length =
      count_non_terminal db + 1 := by
  subst hl
  simp [count_non_terminal, List.filter_append, h, nonTerminalStatus]

/-- Claim C5: with parallel batches disabled, `create_batch` while a
non-terminal batch exists returns a not-created result whose `blocking_batch`
names that batch and changes neither the store nor the filesystem; and a
`create_batch` call preserves "at most one non-terminal batch". -/
theorem C5_single_active_batch (cfg : BatchConfig) (stat : String → Option Nat)
    (t : Nat) (db : DB) (fs : FS) (hpar : cfg.allowParallel = false) :
    (∀ b ∈ db.batches, nonTerminalStatus b.status →
      (∀ b' ∈ db.batches, nonTerminalStatus b'.status → b' = b) →
      (create_batch cfg stat t db fs).1.created = false ∧
        (create_batch cfg stat t db fs).1.blockingBatch = some b.name ∧
        (create_batch cfg stat t db fs).2.1 = db ∧
        (create_batch cfg stat t db fs).2.2 = fs) ∧
    (count_non_terminal db ≤ 1 →
      count_non_terminal (create_batch cfg stat t db fs).2.1 ≤ 1) := by
  constructor
  · intro b hb hnt huniq
    have hfil : ∀ x ∈ db.batches.filter (fun x => nonTerminalStatus x.status), x = b := by
      intro x hx
      exact huniq x (List.mem_filter.mp hx).1 (List.mem_filter.mp hx).2
    have hne : db.batches.filter (fun x => nonTerminalStatus x.status) ≠ [] := by
      have : b ∈ db.batches.filter (fun x => nonTerminalStatus x.status) :=
        List.mem_filter.mpr ⟨hb, hnt⟩
      exact List.ne_nil_of_mem this
    have hg : active_batch_guard db = some (b.name, b.status) := by
      unfold active_batch_guard
      rw [min_by_created_eq_of_all b _ hne hfil]
      rfl
    rw [create_batch_blocked cfg stat t db fs b.name b.status hpar hg]
    exact ⟨rfl, rfl, rfl, rfl⟩
  · intro hcount
    cases hg : active_batch_guard db with
    | some pair =>
      rw [create_batch_blocked cfg stat t db fs pair.1 pair.2 hpar (by rw [hg])]
      exact hcount
    | none =>
      have hzero : count_non_terminal db = 0 := by
        unfold active_batch_guard at hg
        rcases Option.map_eq_none.mp hg with hmin
        have := min_by_created_eq_none.mp hmin
        simp [count_non_terminal, this]
      rcases create_batch_batches cfg stat t db fs with h | ⟨row, hrow, h⟩
      · simp [count_non_terminal, h]
        have : (db.batches.filter (fun b => nonTerminalStatus b.status)).length = 0 := hzero
        omega
      · have : count_non_terminal (create_batch cfg stat t db fs).2.1 =
            count_non_terminal db + 1 := by
          unfold count_non_terminal
          rw [h]
          simp [List.filter_append, hrow, nonTerminalStatus]
        omega

/-- Witness for C5 at a concrete store with one pending batch and one pending
candidate file. -/
theorem C5_single_active_batch_witness :
    exCfg.allowParallel = false ∧
      (let db := DB.mk [mkFile 1 "/src/z" 1 (some "hz") .unique none]
        [mkBatch 1 "batch_1" .pending 5];
      (∀ b ∈ db.batches, nonTerminalStatus b.status →
        (∀ b' ∈ db.batches, nonTerminalStatus b'.status → b' = b) →
        (create_batch exCfg (fun _ => none) 9 db ["/src/z"]).1.created = false ∧
          (create_batch exCfg (fun _ => none) 9 db ["/src/z"]).1.blockingBatch = some b.name ∧
          (create_batch exCfg (fun _ => none) 9 db ["/src/z"]).2.1 = db ∧
          (create_batch exCfg (fun _ => none) 9 db ["/src/z"]).2.2 = ["/src/z"]) ∧
      (count_non_terminal db ≤ 1 →
        count_non_terminal (create_batch exCfg (fun _ => none) 9 db ["/src/z"]).2.1 ≤ 1)) :=
  ⟨rfl, C5_single_active_batch exCfg (fun _ => none) 9
    (DB.mk [mkFile 1 "/src/z" 1 (some "hz") .unique none] [mkBatch 1 "batch_1" .pending 5])
    ["/src/z"] rfl⟩

theorem mem_update_files_where (db : DB) (pred : FileRec → Bool) (g : FileRec → FileRec)
    (f : FileRec) (hf : f ∈ db.files) (hp : pred f = true) :
    g f ∈ (update_files_where db pred g).files :=
  List.mem_map.mpr ⟨f, hf, by rw [hp]; simp⟩

theorem mem_update_batch_by_name (db : DB) (name : String) (g : BatchRec → BatchRec)
    (bb : BatchRec) (hbb : bb ∈ db.batches) (hname : bb.name = name) :
    g bb ∈ (update_batch_by_name db name g).batches :=
  List.mem_map.mpr ⟨bb, hbb, by rw [if_pos hname]⟩

/-- Claim C6: a completion of at least 100 flips the batch to SYNCED with a
non-null synced timestamp, promotes its BATCHED files to SYNCED and reports
progress exactly 100; on an already-SYNCED batch, `status` returns 100 at
once, without consulting the daemon or filesystem and without writing. -/
theorem C6_status_completion (batchDir : String) (fs : FS) (q : Rat) (t : String)
    (db : DB) (name : String) (b : BatchRec)
    (hb : get_batch_by_name db name = some b) :
    (b.status ≠ .synced →
      fs.any (fun p => (starts_with (batchDir ++ "/" ++ name ++ "/") p ∨
        p = batchDir ++ "/" ++ name)) = true →
      100 ≤ q →
      ∃ db1, sync_status batchDir fs (.ok q) t db name =
          some ({ batch := name, status := .synced, progress := 100,
                  syncedAt := some t, detail := none }, db1) ∧
        (∀ bb ∈ db.batches, bb.name = name →
          { bb with status := .synced, syncedAt := some t } ∈ db1.batches) ∧
        (∀ f ∈ db.files, f.batchId = some b.id → f.status = .batched →
          { f with status := .synced } ∈ db1.files)) ∧
    (b.status = .synced →
      ∀ (fs2 : FS) (d2 : Except String Rat) (t2 : String),
        sync_status batchDir fs2 d2 t2 db name =
          some ({ batch := name, status := b.status, progress := 100,
                  syncedAt := b.syncedAt }, db)) := by
  constructor
  · intro hns hdir hq
    refine ⟨mark_batch_synced db name b.id t, ?_, ?_, ?_⟩
    · simp only [sync_status, hb]
      rw [if_neg hns, if_neg (not_not_intro hdir)]
      simp [hq]
    · intro bb hbb hname
      exact mem_update_batch_by_name db name _ bb hbb hname
    · intro f hf hfb hfs
      exact mem_update_files_where _ _ _ f hf (by simp [hfb, hfs])
  · intro hsy fs2 d2 t2
    simp only [sync_status, hb]
    rw [if_pos hsy]

/-- Witness for C6: a SYNCING batch whose daemon reports 100. -/
theorem C6_status_completion_witness :
    get_batch_by_name (DB.mk [mkFile 1 "/b/b1/f" 1 none .batched (some 1)]
        [mkBatch 1 "b1" .syncing 0]) "b1" = some (mkBatch 1 "b1" .syncing 0) ∧
      ((mkBatch 1 "b1" .syncing 0).status ≠ BatchStatus.synced →
        (["/b/b1/f"] : FS).any (fun p => (starts_with ("/b" ++ "/" ++ "b1" ++ "/") p ∨
          p = "/b" ++ "/" ++ "b1")) = true →
        (100 : Rat) ≤ 100 →
        ∃ db1, sync_status "/b" ["/b/b1/f"] (.ok 100) "T"
            (DB.mk [mkFile 1 "/b/b1/f" 1 none .batched (some 1)]
              [mkBatch 1 "b1" .syncing 0]) "b1" =
            some ({ batch := "b1", status := .synced, progress := 100,
                    syncedAt := some "T", detail := none }, db1) ∧
          (∀ bb ∈ (DB.mk [mkFile 1 "/b/b1/f" 1 none .batched (some 1)]
              [mkBatch 1 "b1" .syncing 0]).batches, bb.name = "b1" →
            { bb with status := .synced, syncedAt := some "T" } ∈ db1.batches) ∧
          (∀ f ∈ (DB.mk [mkFile 1 "/b/b1/f" 1 none .batched (some 1)]
              [mkBatch 1 "b1" .syncing 0]).files,
            f.batchId = some (mkBatch 1 "b1" .syncing 0).id → f.status = .batched →
            { f with status := .synced } ∈ db1.files)) :=
  ⟨by decide,
   (C6_status_completion "/b" ["/b/b1/f"] 100 "T"
      (DB.mk [mkFile 1 "/b/b1/f" 1 none .batched (some 1)] [mkBatch 1 "b1" .syncing 0])
      "b1" (mkBatch 1 "b1" .syncing 0) (by decide)).1⟩

/-- Witness for C7: the daemon raises while a SYNCING batch is polled. -/
theorem C7_daemon_error_witness :
    get_batch_by_name (DB.mk [] [mkBatch 1 "b1" .syncing 0]) "b1" =
        some (mkBatch 1 "b1" .syncing 0) ∧
      (mkBatch 1 "b1" .syncing 0).status ≠ BatchStatus.synced ∧
      (["/b/b1/f"] : FS).any (fun p => (starts_with ("/b" ++ "/" ++ "b1" ++ "/") p ∨
        p = "/b" ++ "/" ++ "b1")) = true ∧
      sync_status "/b" ["/b/b1/f"] (.error "boom") "T"
          (DB.mk [] [mkBatch 1 "b1" .syncing 0]) "b1" =
        some ({ batch := "b1", status := (mkBatch 1 "b1" .syncing 0).status, progress := 0,
                syncedAt := (mkBatch 1 "b1" .syncing 0).syncedAt, detail := some "boom" },
          DB.mk [] [mkBatch 1 "b1" .syncing 0]) :=
  ⟨by decide, by decide, by decide,
   C7_daemon_error_degrades_reporting "/b" ["/b/b1/f"] "boom" "T"
     (DB.mk [] [mkBatch 1 "b1" .syncing 0]) "b1" (mkBatch 1 "b1" .syncing 0)
     (by decide) (by decide) (by decide)⟩

/-! ### Lemmas about batch lookups after updates -/

theorem get_batch_congr {db1 db2 : DB} (h : db1.batches = db2.batches) (n : String) :
    get_batch_by_name db1 n = get_batch_by_name db2 n := by
  simp [get_batch_by_name, h]

theorem find?_name_map_update (name : String) (f : BatchRec → BatchRec)
    (hf : ∀ r, (f r).name = r.name) :
    ∀ l : List BatchRec,
      (l.map (fun b => if b.name = name then f b else b)).find? (fun b => b.name = name) =
        (l.find? (fun b => b.name = name)).map f := by
  intro l
  induction l with
  | nil => rfl
  | cons b bs ih =>
    by_cases hb : b.name = name
    · simp [List.find?_cons, hb, hf b]
    · simp [List.find?_cons, hb, ih]

theorem get_batch_update (db : DB) (name : String) (f : BatchRec → BatchRec)
    (hf : ∀ r, (f r).name = r.name) :
    get_batch_by_name (update_batch_by_name db name f) name =
      (get_batch_by_name db name).map f :=
  find?_name_map_update name f hf db.batches

theorem sort_fold_batches (env : SortEnv) :
    ∀ (rows : List FileRec) (acc : SortAcc),
      ((rows.foldl (sort_file_step env) acc).db).batches = acc.db.batches := by
  intro rows
  induction rows with
  | nil => intro acc; rfl
  | cons r rs ih =>
    intro acc
    rw [List.foldl_cons, ih]
    unfold sort_file_step
    split
    · rfl
    · split
      · rfl
      · split
        · rfl
        · rfl

/-- Claim C2 counterexample: `SyncService.start` on a batch whose status is
SORTED (its directory still on disk) moves it back to SYNCING — a `sorted`
batch does return to an earlier state, refuting the claim as stated. -/
theorem C2_counterexample :
    (get_batch_by_name exDbSorted "b1").map (fun b => b.status) = some .sorted ∧
      (sync_start "/batches" exFsSorted exDbSorted "b1").map
        (fun r => r.2.batches.map (fun b => b.status)) = some [.syncing] ∧
      status_rank .syncing < status_rank .sorted := by
  refine ⟨by decide, by decide, by decide⟩

/-- Claim C2 amended: for a batch whose status is pending, syncing or synced,
each single operation (`SyncService.start`, `SyncService.status`,
`SortService.start`) only moves the status forward along
pending→syncing→synced→sorting→sorted; in particular no operation moves a
synced batch back to syncing.  (A batch already in `sorting`/`sorted` can be
regressed by `SyncService.start`/`status`, as the counterexample shows.) -/
theorem C2_amended_forward_only (db : DB) (name : String) (b : BatchRec)
    (hb : get_batch_by_name db name = some b)
    (hchain : b.status = .pending ∨ b.status = .syncing ∨ b.status = .synced) :
    (∀ (batchDir : String) (fs : FS) (res : SyncStartResult) (db' : DB),
      sync_start batchDir fs db name = some (res, db') →
      ∀ b', get_batch_by_name db' name = some b' →
        status_rank b.status ≤ status_rank b'.status) ∧
    (∀ (batchDir : String) (fs : FS) (daemon : Except String Rat) (t : String)
        (res : SyncStatusResult) (db' : DB),
      sync_status batchDir fs daemon t db name = some (res, db') →
      ∀ b', get_batch_by_name db' name = some b' →
        status_rank b.status ≤ status_rank b'.status) ∧
    (∀ (env : SortEnv) (t : String) (fs : FS) (res : SortResult) (db' : DB) (fs' : FS),
      sort_start env t db fs name = some (res, db', fs') →
      ∀ b', get_batch_by_name db' name = some b' →
        status_rank b.status ≤ status_rank b'.status) := by
  refine ⟨?_, ?_, ?_⟩
  · intro batchDir fs res db' hrun b' hb'
    unfold sync_start at hrun
    rw [hb] at hrun
    dsimp only [] at hrun
    by_cases h1 : b.status = .synced
    · rw [if_pos h1] at hrun
      simp only [Option.some.injEq, Prod.mk.injEq] at hrun
      obtain ⟨-, hdb⟩ := hrun
      subst hdb
      rw [hb'] at hb
      cases Option.some.inj hb
      exact le_refl _
    · rw [if_neg h1] at hrun
      by_cases h2 : b.status = .syncing
      · rw [if_pos h2] at hrun
        simp only [Option.some.injEq, Prod.mk.injEq] at hrun
        obtain ⟨-, hdb⟩ := hrun
        subst hdb
        rw [hb'] at hb
        cases Option.some.inj hb
        exact le_refl _
      · rw [if_neg h2] at hrun
        split at hrun
        · simp only [Option.some.injEq, Prod.mk.injEq] at hrun
          obtain ⟨-, hdb⟩ := hrun
          subst hdb
          rw [get_batch_update db name
            (fun r => { r with status := BatchStatus.syncing, syncedAt := none })
            (fun r => rfl), hb] at hb'
          cases Option.some.inj hb'
          have hp : b.status = .pending := by
            rcases hchain with h | h | h
            · exact h
            · exact absurd h h2
            · exact absurd h h1
          simp [status_rank, hp]
        · exact absurd hrun (by simp)
  · intro batchDir fs daemon t res db' hrun b' hb'
    unfold sync_status at hrun
    rw [hb] at hrun
    dsimp only [] at hrun
    by_cases h1 : b.status = .synced
    · rw [if_pos h1] at hrun
      simp only [Option.some.injEq, Prod.mk.injEq] at hrun
      obtain ⟨-, hdb⟩ := hrun
      subst hdb
      rw [hb'] at hb
      cases Option.some.inj hb
      exact le_refl _
    · rw [if_neg h1] at hrun
      split at hrun
      · simp only [Option.some.injEq, Prod.mk.injEq] at hrun
        obtain ⟨-, hdb⟩ := hrun
        subst hdb
        rw [hb'] at hb
        cases Option.some.inj hb
        exact le_refl _
      · split at hrun
        · simp only [Option.some.injEq, Prod.mk.injEq] at hrun
          obtain ⟨-, hdb⟩ := hrun
          subst hdb
          have hgb : get_batch_by_name (mark_batch_synced db name b.id t) name =
              some { b with status := .synced, syncedAt := some t } := by
            unfold mark_batch_synced
            rw [get_batch_congr (update_files_where_batches _ _ _) name]
            rw [get_batch_update db name
              (fun r => { r with status := BatchStatus.synced, syncedAt := some t })
              (fun r => rfl), hb]
            rfl
          rw [hgb] at hb'
          cases Option.some.inj hb'
          rcases hchain with h | h | h <;> simp [status_rank, h]
        · simp only [Option.some.injEq, Prod.mk.injEq] at hrun
          obtain ⟨-, hdb⟩ := hrun
          subst hdb
          rw [hb'] at hb
          cases Option.some.inj hb
          exact le_refl _
  · intro env t fs res db' fs' hrun b' hb'
    unfold sort_start at hrun
    rw [hb] at hrun
    dsimp only [] at hrun
    by_cases h1 : b.status = .sorted
    · rw [if_pos h1] at hrun
      simp only [Option.some.injEq, Prod.mk.injEq] at hrun
      obtain ⟨-, hdb, -⟩ := hrun
      subst hdb
      rw [hb'] at hb
      cases Option.some.inj hb
      exact le_refl _
    · rw [if_neg h1] at hrun
      simp only [Option.some.injEq, Prod.mk.injEq] at hrun
      obtain ⟨-, hdb, -⟩ := hrun
      subst hdb
      rw [get_batch_update _ name
        (fun r => { r with status := BatchStatus.sorted, sortedAt := some t })
        (fun r => rfl)] at hb'
      rw [get_batch_congr (sort_fold_batches env _ _) name] at hb'
      rw [get_batch_update db name
        (fun r => { r with status := BatchStatus.sorting, sortedAt := none })
        (fun r => rfl), hb] at hb'
      cases Option.some.inj hb'
      rcases hchain with h | h | h <;> simp [status_rank, h]

/-- Witness for C2 at a concrete pending batch driven by `sync_start`. -/
theorem C2_amended_forward_only_witness :
    get_batch_by_name (DB.mk [] [mkBatch 1 "b1" .pending 0]) "b1" =
        some (mkBatch 1 "b1" .pending 0) ∧
      ((mkBatch 1 "b1" .pending 0).status = BatchStatus.pending ∨
        (mkBatch 1 "b1" .pending 0).status = BatchStatus.syncing ∨
        (mkBatch 1 "b1" .pending 0).status = BatchStatus.synced) ∧
      (∀ (batchDir : String) (fs : FS) (res : SyncStartResult) (db' : DB),
        sync_start batchDir fs (DB.mk [] [mkBatch 1 "b1" .pending 0]) "b1" =
            some (res, db') →
        ∀ b', get_batch_by_name db' "b1" = some b' →
          status_rank (mkBatch 1 "b1" .pending 0).status ≤ status_rank b'.status) :=
  ⟨by decide, by decide,
   (C2_amended_forward_only (DB.mk [] [mkBatch 1 "b1" .pending 0]) "b1"
      (mkBatch 1 "b1" .pending 0) (by decide) (by decide)).1⟩

/-! ### Byte-budget selection (C8) -/

theorem sum_sizes_append (l : List NCand) (n : NCand) :
    sum_sizes (l ++ [n]) = sum_sizes l + n.size := by
  simp [sum_sizes]

theorem select_go_invariant (stat : String → Option Nat) (L F : Nat) (hL : 0 < L) :
    ∀ (cands : List Candidate) (selected : List NCand) (running : Nat),
      running = sum_sizes selected → sum_sizes selected ≤ L →
      (∀ n ∈ selected, n.size ≤ L) →
      sum_sizes (select_go stat L F cands selected running) ≤ L ∧
        ∀ n ∈ select_go stat L F cands selected running, n.size ≤ L := by
  intro cands
  induction cands with
  | nil =>
    intro selected running h1 h2 h3
    exact ⟨h2, h3⟩
  | cons row rest ih =>
    intro selected running h1 h2 h3
    unfold select_go
    cases hn : normalize_candidate stat row with
    | none => exact ih selected running h1 h2 h3
    | some n =>
      dsimp only []
      split
      · exact ⟨h2, h3⟩
      · split
        · rename_i hover
          split
          · exact ⟨h2, h3⟩
          · rename_i hempty
            have hsel : selected = [] := not_ne_iff.mp hempty
            split
            · exact ih selected running h1 h2 h3
            · rename_i hfit
              have hnsize : n.size ≤ L := Nat.le_of_not_lt hfit
              have hsum : sum_sizes (selected ++ [n]) ≤ L := by
                rw [sum_sizes_append]
                subst hsel
                simpa [sum_sizes] using hnsize
              have hmem : ∀ m ∈ selected ++ [n], m.size ≤ L := by
                intro m hm
                rcases List.mem_append.mp hm with h | h
                · exact h3 m h
                · rw [List.mem_singleton.mp h]; exact hnsize
              split
              · exact ⟨hsum, hmem⟩
              · exact ih (selected ++ [n]) (running + n.size)
                  (by rw [sum_sizes_append, h1]) hsum hmem
        · rename_i hnot
          have hfits : running + n.size ≤ L := by
            rcases Decidable.not_and_iff_or_not .. |>.mp hnot with h | h
            · exact absurd (Nat.pos_iff_ne_zero.mp hL) h
            · exact Nat.le_of_not_lt h
          have hsum : sum_sizes (selected ++ [n]) ≤ L := by
            rw [sum_sizes_append, ← h1]; exact hfits
          have hmem : ∀ m ∈ selected ++ [n], m.size ≤ L := by
            intro m hm
            rcases List.mem_append.mp hm with h | h
            · exact h3 m h
            · rw [List.mem_singleton.mp h]
              exact le_trans (Nat.le_add_left _ _) hfits
          split
          · exact ⟨hsum, hmem⟩
          · exact ih (selected ++ [n]) (running + n.size)
              (by rw [sum_sizes_append, h1]) hsum hmem

/-- Claim C8: in byte-budget mode with a positive budget, the selected total
never exceeds the budget, every selected file fits within the budget, and a
candidate whose own size exceeds the whole budget is never selected. -/
theorem C8_byte_budget (cfg : BatchConfig) (stat : String → Option Nat)
    (candidates : List Candidate) (hmode : cfg.selectionMode = "size")
    (hpos : 0 < cfg.maxSizeBytes) :
    sum_sizes (select_within_limit cfg stat candidates) ≤ cfg.maxSizeBytes ∧
      (∀ n ∈ select_within_limit cfg stat candidates, n.size ≤ cfg.maxSizeBytes) ∧
      ∀ (row : Candidate) (n : NCand), normalize_candidate stat row = some n →
        cfg.maxSizeBytes < n.size → n ∉ select_within_limit cfg stat candidates := by
  have hbase : sum_sizes (select_within_limit cfg stat candidates) ≤ cfg.maxSizeBytes ∧
      ∀ n ∈ select_within_limit cfg stat candidates, n.size ≤ cfg.maxSizeBytes := by
    unfold select_within_limit
    simp only [hmode]
    norm_num
    exact select_go_invariant stat cfg.maxSizeBytes 0 hpos candidates [] 0 rfl
      (by simp [sum_sizes]) (by simp)
  refine ⟨hbase.1, hbase.2, ?_⟩
  intro row n _ hover hmem
  exact absurd (hbase.2 n hmem) (Nat.not_le_of_lt hover)

/-- Witness for C8 at the concrete one-unit-budget configuration. -/
theorem C8_byte_budget_witness :
    exCfg.selectionMode = "size" ∧ 0 < exCfg.maxSizeBytes ∧
      (sum_sizes (select_within_limit exCfg (fun _ => none)
          [⟨"/src/a", some 1, none⟩, ⟨"/src/b", some 1, none⟩, ⟨"/src/c", some 5, none⟩]) ≤
        exCfg.maxSizeBytes ∧
      (∀ n ∈ select_within_limit exCfg (fun _ => none)
          [⟨"/src/a", some 1, none⟩, ⟨"/src/b", some 1, none⟩, ⟨"/src/c", some 5, none⟩],
        n.size ≤ exCfg.maxSizeBytes) ∧
      ∀ (row : Candidate) (n : NCand), normalize_candidate (fun _ => none) row = some n →
        exCfg.maxSizeBytes < n.size →
        n ∉ select_within_limit exCfg (fun _ => none)
          [⟨"/src/a", some 1, none⟩, ⟨"/src/b", some 1, none⟩, ⟨"/src/c", some 5, none⟩]) :=
  ⟨rfl, by decide,
   C8_byte_budget exCfg (fun _ => none)
     [⟨"/src/a", some 1, none⟩, ⟨"/src/b", some 1, none⟩, ⟨"/src/c", some 5, none⟩]
     rfl (by decide)⟩

/-! ### Collision resolution (C9) -/

theorem digit_val_dec_digit : ∀ d, d < 10 → digit_val (dec_digit d) = d := by
  decide

theorem dec_val_append (cs : List Char) (c : Char) :
    dec_val (cs ++ [c]) = dec_val cs * 10 + digit_val c := by
  simp [dec_val, List.foldl_append]

theorem dec_chars_val : ∀ (fuel n : Nat), n < fuel → dec_val (dec_chars fuel n) = n := by
  intro fuel
  induction fuel with
  | zero => intro n hn; omega
  | succ fuel ih =>
    intro n hn
    unfold dec_chars
    by_cases h10 : n < 10
    · rw [if_pos h10]
      have := digit_val_dec_digit n h10
      simp [dec_val, this]
    · rw [if_neg h10]
      have hdiv : n / 10 < fuel := by
        have h1 : n / 10 < n := Nat.div_lt_self (by omega) (by omega)
        omega
      rw [dec_val_append, ih (n / 10) hdiv, digit_val_dec_digit (n % 10) (Nat.mod_lt n (by omega))]
      omega

theorem dec_str_inj : Function.Injective dec_str := by
  intro a b h
  have hdata : dec_chars (a + 1) a = dec_chars (b + 1) b := congrArg String.data h
  have := dec_chars_val (a + 1) a (Nat.lt_succ_self a)
  rw [hdata, dec_chars_val (b + 1) b (Nat.lt_succ_self b)] at this
  omega

theorem string_append_inj_left {a : String} {b c : String} (h : a ++ b = a ++ c) : b = c := by
  apply String.ext
  have hd : a.data ++ b.data = a.data ++ c.data := by
    rw [← String.data_append, ← String.data_append, h]
  exact List.append_cancel_left hd

theorem string_append_inj_right {a b : String} {c : String} (h : a ++ c = b ++ c) : a = b := by
  apply String.ext
  have hd : a.data ++ c.data = b.data ++ c.data := by
    rw [← String.data_append, ← String.data_append, h]
  exact List.append_cancel_right hd

theorem coll_cand_render_inj (dest : DPath) : ∀ i j : Nat,
    (coll_cand dest i).render = (coll_cand dest j).render → i = j := by
  intro i j h
  have hd := congrArg String.data h
  simp only [coll_cand, with_stem, DPath.render, String.data_append,
    List.append_assoc] at hd
  have h1 := List.append_cancel_left (List.append_cancel_left
    (List.append_cancel_left (List.append_cancel_left hd)))
  have h2 : dec_chars (i + 1) i = dec_chars (j + 1) j := List.append_cancel_right h1
  have hi := dec_chars_val (i + 1) i (Nat.lt_succ_self i)
  rw [h2, dec_chars_val (j + 1) j (Nat.lt_succ_self j)] at hi
  omega

theorem contains_iff_mem (fs : FS) (x : String) : fs.contains x = true ↔ x ∈ fs := by
  simp [List.contains]

theorem exists_free_cand (fs : FS) (dest : DPath) :
    ∃ k, 1 ≤ k ∧ k ≤ fs.length + 1 ∧ (coll_cand dest k).render ∉ fs := by
  by_contra hall
  push_neg at hall
  have hsub : ((List.range' 1 (fs.length + 1)).map
      (fun k => (coll_cand dest k).render)) ⊆ fs := by
    intro x hx
    rcases List.mem_map.mp hx with ⟨k, hk, rfl⟩
    rcases List.mem_range'_1.mp hk with ⟨h1, h2⟩
    exact hall k h1 (by omega)
  have hnodup : ((List.range' 1 (fs.length + 1)).map
      (fun k => (coll_cand dest k).render)).Nodup :=
    (List.nodup_range' ..).map (fun a b hab => coll_cand_render_inj dest a b hab)
  have hlen := (List.subperm_of_subset hnodup hsub).length_le
  simp [List.length_range'] at hlen

theorem resolve_go_min (fs : FS) (dest : DPath) : ∀ (fuel i : Nat),
    (∃ k, i ≤ k ∧ k < i + fuel ∧ (coll_cand dest k).render ∉ fs) →
    ∃ k, i ≤ k ∧ (coll_cand dest k).render ∉ fs ∧
      resolve_go fs dest fuel i = coll_cand dest k ∧
      ∀ j, i ≤ j → j < k → (coll_cand dest j).render ∈ fs := by
  intro fuel
  induction fuel with
  | zero =>
    intro i ⟨k, h1, h2, _⟩
    omega
  | succ fuel ih =>
    intro i ⟨k, hk1, hk2, hk3⟩
    unfold resolve_go
    by_cases hc : (coll_cand dest i).render ∈ fs
    · rw [if_pos ((contains_iff_mem ..).mpr hc)]
      have hki : i ≠ k := fun h => hk3 (h ▸ hc)
      obtain ⟨k', h1, h2, h3, h4⟩ :=
        ih (i + 1) ⟨k, by omega, by omega, hk3⟩
      refine ⟨k', by omega, h2, h3, ?_⟩
      intro j hj1 hj2
      rcases Nat.eq_or_lt_of_le hj1 with h | h
      · exact h ▸ hc
      · exact h4 j h hj2
    · rw [if_neg (fun h => hc ((contains_iff_mem ..).mp h))]
      exact ⟨i, le_refl i, hc, rfl, fun j hj1 hj2 => absurd (lt_of_le_of_lt hj1 hj2) (lt_irrefl i)⟩

/-- Claim C9: when the computed destination exists and is a different file,
the actual destination carries the smallest positive numeric suffix whose name
is free (every smaller suffix is taken), so no existing file is replaced. -/
theorem C9_collision_no_overwrite (fs : FS) (src : String) (dest : DPath)
    (hex : dest.render ∈ fs) (hneq : src ≠ dest.render) :
    ∃ i, 1 ≤ i ∧ final_destination fs src dest = coll_cand dest i ∧
      (coll_cand dest i).render ∉ fs ∧
      ∀ j, 1 ≤ j → j < i → (coll_cand dest j).render ∈ fs := by
  have hfd : final_destination fs src dest = resolve_collision fs dest := by
    unfold final_destination
    rw [if_pos ((contains_iff_mem ..).mpr hex), if_pos hneq]
  obtain ⟨k, h1, h2, h3⟩ := exists_free_cand fs dest
  obtain ⟨i, hi1, hi2, hi3, hi4⟩ :=
    resolve_go_min fs dest (fs.length + 1) 1 ⟨k, h1, by omega, h3⟩
  exact ⟨i, hi1, by rw [hfd]; exact hi3, hi2, hi4⟩

/-- Witness for C9: `photo.jpg` collides, `photo_1.jpg` is also taken, the
file lands at `photo_2.jpg`. -/
theorem C9_collision_no_overwrite_witness :
    ("/s/photo.jpg" ∈ (["/s/photo.jpg", "/s/photo_1.jpg"] : FS)) ∧
      ("/batch/photo.jpg" ≠ "/s/photo.jpg") ∧
      ∃ i, 1 ≤ i ∧
        final_destination ["/s/photo.jpg", "/s/photo_1.jpg"] "/batch/photo.jpg"
            ⟨"/s", "photo.jpg"⟩ = coll_cand ⟨"/s", "photo.jpg"⟩ i ∧
        (coll_cand ⟨"/s", "photo.jpg"⟩ i).render ∉
          (["/s/photo.jpg", "/s/photo_1.jpg"] : FS) ∧
        ∀ j, 1 ≤ j → j < i →
          (coll_cand ⟨"/s", "photo.jpg"⟩ j).render ∈
            (["/s/photo.jpg", "/s/photo_1.jpg"] : FS) :=
  ⟨by decide, by decide,
   C9_collision_no_overwrite ["/s/photo.jpg", "/s/photo_1.jpg"] "/batch/photo.jpg"
     ⟨"/s", "photo.jpg"⟩ (by decide) (by decide)⟩

/-! ### Sorting (C10) -/

theorem sort_fold_preserves (env : SortEnv) (f : FileRec) :
    ∀ (rows : List FileRec) (acc : SortAcc),
      f ∈ acc.db.files →
      (∀ g ∈ rows, g.rowid = f.rowid →
        capture_datetime env g.path g.exifDatetime = none) →
      f ∈ ((rows.foldl (sort_file_step env) acc).db).files := by
  intro rows
  induction rows with
  | nil => intro acc hf _; exact hf
  | cons g gs ih =>
    intro acc hf hnone
    rw [List.foldl_cons]
    apply ih
    · unfold sort_file_step
      split
      · exact hf
      · split
        · exact hf
        · cases hdd : determine_destination env g.path g.exifDatetime with
          | none => exact hf
          | some pr =>
            dsimp only []
            have hcap : capture_datetime env g.path g.exifDatetime ≠ none := by
              intro hc
              unfold determine_destination at hdd
              rw [hc] at hdd
              exact Option.noConfusion hdd
            have hne : f.rowid ≠ g.rowid := by
              intro he
              exact hcap (hnone g (List.mem_cons_self g gs) he.symm)
            refine List.mem_map.mpr ⟨f, hf, ?_⟩
            simp [hne]
    · intro g' hg' hrow
      exact hnone g' (List.mem_cons_of_mem g hg') hrow

/-- Claim C10: capture timestamps are resolved in the order stored timestamp,
embedded metadata, then (only if enabled) filesystem mtime; a file that
resolves to nothing is skipped and its row is left untouched; and after the
loop the batch is stamped SORTED regardless of skips. -/
theorem C10_capture_order_and_best_effort (env : SortEnv) (t : String) (db : DB)
    (fs : FS) (name : String) (b : BatchRec)
    (hb : get_batch_by_name db name = some b)
    (hns : b.status ≠ .sorted)
    (hnodup : (db.files.map (fun r => r.rowid)).Nodup) :
    (∀ (p s : String) (d : DT), s ≠ "" → env.parseIso s = some d →
      capture_datetime env p (some s) = some d) ∧
    (∀ (p : String) (stored : Option String) (c : DT),
      (stored = none ∨ ∃ s, stored = some s ∧ (s = "" ∨ env.parseIso s = none)) →
      env.exifOf p = some c → capture_datetime env p stored = some c) ∧
    (∀ (p : String) (stored : Option String),
      (stored = none ∨ ∃ s, stored = some s ∧ (s = "" ∨ env.parseIso s = none)) →
      env.exifOf p = none →
      capture_datetime env p stored = (if env.exifFallback then env.mtimeOf p else none)) ∧
    (∃ res db' fs', sort_start env t db fs name = some (res, db', fs') ∧
      res.started = true ∧
      (∀ f ∈ db.files, f.batchId = some b.id →
        capture_datetime env f.path f.exifDatetime = none → f ∈ db'.files) ∧
      (∀ bb ∈ db.batches, bb.name = name →
        { bb with status := .sorted, sortedAt := some t } ∈ db'.batches)) := by
  have hstored : ∀ (p : String) (stored : Option String),
      (stored = none ∨ ∃ s, stored = some s ∧ (s = "" ∨ env.parseIso s = none)) →
      (match stored with
        | some s => if s = "" then none else env.parseIso s
        | none => none) = (none : Option DT) := by
    intro p stored hfail
    rcases hfail with h | ⟨s, rfl, h⟩
    · rw [h]
    · rcases h with h | h
      · rw [h]; simp
      · by_cases he : s = ""
        · simp [he]
        · simp [he, h]
  refine ⟨?_, ?_, ?_, ?_⟩
  · intro p s d hs hparse
    unfold capture_datetime
    simp [hs, hparse]
  · intro p stored c hfail hexif
    unfold capture_datetime
    rw [hstored p stored hfail]
    simp [hexif]
  · intro p stored hfail hexif
    unfold capture_datetime
    rw [hstored p stored hfail]
    simp only [hexif]
  · unfold sort_start
    rw [hb]
    dsimp only []
    rw [if_neg hns]
    refine ⟨_, _, _, rfl, rfl, ?_, ?_⟩
    · intro f hf hfb hcap
      apply sort_fold_preserves env f
      · exact hf
      · intro g hg hrow
        have hg' : g ∈ db.files := List.mem_of_mem_filter hg
        have hgf : g = f := List.inj_on_of_nodup_map hnodup hg' hf hrow
        rw [hgf]
        exact hcap
    · intro bb hbb hname
      have h1 : (fun r => { r with status := BatchStatus.sorting, sortedAt := none }) bb ∈
          (update_batch_by_name db name
            (fun r => { r with status := BatchStatus.sorting, sortedAt := none })).batches :=
        mem_update_batch_by_name db name _ bb hbb hname
      have h2 : (fun r => { r with status := BatchStatus.sorting, sortedAt := none }) bb ∈
          ((((update_batch_by_name db name
            (fun r => { r with status := BatchStatus.sorting, sortedAt := none })).files.filter
              (fun f => f.batchId = some b.id)).foldl (sort_file_step env)
            { db := update_batch_by_name db name
                (fun r => { r with status := BatchStatus.sorting, sortedAt := none }),
              fs := fs, sortedCount := 0, skipped := 0 }).db).batches := by
        rw [sort_fold_batches]
        exact h1
      exact mem_update_batch_by_name _ name
        (fun r => { r with status := BatchStatus.sorted, sortedAt := some t })
        ((fun r => { r with status := BatchStatus.sorting, sortedAt := none }) bb) h2 hname

/-- Witness for C10 at a concrete two-file batch: the photo has embedded
metadata, the text file resolves to nothing with the fallback disabled. -/
theorem C10_capture_order_witness :
    get_batch_by_name exDbSort "b1" = some (mkBatch 1 "b1" .synced 0) ∧
      (mkBatch 1 "b1" .synced 0).status ≠ BatchStatus.sorted ∧
      (exDbSort.files.map (fun r => r.rowid)).Nodup ∧
      (∃ res db' fs', sort_start exSortEnv "T" exDbSort ["/b/b1/photo.jpg", "/b/b1/notes.txt"]
          "b1" = some (res, db', fs') ∧
        res.started = true ∧
        (∀ f ∈ exDbSort.files, f.batchId = some (mkBatch 1 "b1" .synced 0).id →
          capture_datetime exSortEnv f.path f.exifDatetime = none → f ∈ db'.files) ∧
        (∀ bb ∈ exDbSort.batches, bb.name = "b1" →
          { bb with status := .sorted, sortedAt := some "T" } ∈ db'.batches)) :=
  ⟨by decide, by decide, by decide,
   (C10_capture_order_and_best_effort exSortEnv "T" exDbSort
      ["/b/b1/photo.jpg", "/b/b1/notes.txt"] "b1" (mkBatch 1 "b1" .synced 0)
      (by decide) (by decide) (by decide)).2.2.2⟩

/-! ### Deduplication (C4) -/

theorem min_string_eq_none {l : List String} : min_string l = none ↔ l = [] := by
  cases l with
  | nil => simp [min_string]
  | cons s rest =>
    simp only [min_string]
    cases h : min_string rest
    · simp
    · simp only []
      constructor
      · intro hcontra
        split at hcontra <;> simp_all
      · intro hcontra
        simp at hcontra

theorem min_string_mem : ∀ {l : List String} {m : String}, min_string l = some m → m ∈ l := by
  intro l
  induction l with
  | nil => intro m h; simp [min_string] at h
  | cons s rest ih =>
    intro m h
    simp only [min_string] at h
    cases hr : min_string rest with
    | none =>
      rw [hr] at h
      dsimp only [] at h
      cases h
      exact List.mem_cons_self ..
    | some m' =>
      rw [hr] at h
      dsimp only [] at h
      split at h
      · cases h; exact List.mem_cons_self ..
      · cases h; exact List.mem_cons_of_mem s (ih hr)

theorem min_by_path_eq_none {l : List FileRec} : min_by_path l = none ↔ l = [] := by
  cases l with
  | nil => simp [min_by_path]
  | cons r rest =>
    simp only [min_by_path]
    cases h : min_by_path rest
    · simp
    · simp only []
      constructor
      · intro hcontra
        split at hcontra <;> simp_all
      · intro hcontra
        simp at hcontra

theorem min_by_path_mem : ∀ {l : List FileRec} {m : FileRec},
    min_by_path l = some m → m ∈ l := by
  intro l
  induction l with
  | nil => intro m h; simp [min_by_path] at h
  | cons r rest ih =>
    intro m h
    simp only [min_by_path] at h
    cases hr : min_by_path rest with
    | none =>
      rw [hr] at h
      dsimp only [] at h
      cases h
      exact List.mem_cons_self ..
    | some m' =>
      rw [hr] at h
      dsimp only [] at h
      split at h
      · cases h; exact List.mem_cons_self ..
      · cases h; exact List.mem_cons_of_mem r (ih hr)

theorem min_by_path_map : ∀ l : List FileRec,
    (min_by_path l).map (fun r => r.path) = min_string (l.map (fun r => r.path)) := by
  intro l
  induction l with
  | nil => rfl
  | cons r rest ih =>
    simp only [min_by_path, min_string, List.map_cons]
    cases hr : min_by_path rest with
    | none =>
      rw [hr] at ih
      rw [← ih]
      rfl
    | some m =>
      rw [hr] at ih
      rw [← ih]
      by_cases hc : r.path.data ≤ m.path.data <;> simp [hc]

theorem map_path_filter (P : String → Bool) (l : List FileRec) :
    (l.filter (fun r => P r.path)).map (fun r => r.path) =
      (l.map (fun r => r.path)).filter P := by
  induction l with
  | nil => rfl
  | cons r rest ih =>
    by_cases h : P r.path
    · simp [List.filter_cons, h, ih]
    · simp [List.filter_cons, h, ih]

theorem min_string_append_gt {xs : List String} {p : String}
    (hlt : ∀ x ∈ xs, x.data < p.data) (hne : xs ≠ []) :
    min_string (xs ++ [p]) = min_string xs := by
  induction xs with
  | nil => exact absurd rfl hne
  | cons x rest ih =>
    by_cases hr : rest = []
    · subst hr
      have hxp : x.data ≤ p.data := le_of_lt (hlt x (List.mem_cons_self ..))
      simp [min_string, hxp]
    · have hlt' : ∀ y ∈ rest, y.data < p.data :=
        fun y hy => hlt y (List.mem_cons_of_mem x hy)
      have hmin := ih hlt' hr
      rw [List.cons_append]
      simp only [min_string]
      rw [hmin]

/-- `process_one` on a fresh path with no content match: record inserted as
the unique representative of its (new) group. -/
theorem process_one_eq_unique (stat : String → Option FileMeta)
    (hash : String → Except String String) (db : DB) (p : String) (m : FileMeta)
    (digest : String)
    (hget : get_file db p = none) (hstat : stat p = some m) (hhash : hash p = .ok digest)
    (hfd : find_duplicate (insert_new_file db p m) digest p = none) :
    process_one stat hash db p =
      set_file_hashed (insert_new_file db p m) p digest m .unique := by
  unfold process_one
  rw [hget, hstat, hhash]
  simp only [Bool.false_eq_true, if_false]
  rw [hfd]

/-- `process_one` on a fresh path whose content matches an already-unique
record: the new record becomes a duplicate, nothing is promoted. -/
theorem process_one_eq_duplicate (stat : String → Option FileMeta)
    (hash : String → Except String String) (db : DB) (p : String) (m : FileMeta)
    (digest : String) (d : FileRec)
    (hget : get_file db p = none) (hstat : stat p = some m) (hhash : hash p = .ok digest)
    (hfd : find_duplicate (insert_new_file db p m) digest p = some d)
    (hdu : d.status = .unique) :
    process_one stat hash db p =
      set_file_hashed (insert_new_file db p m) p digest m .duplicate := by
  unfold process_one
  rw [hget, hstat, hhash]
  simp only [Bool.false_eq_true, if_false]
  rw [hfd]
  dsimp only []
  rw [if_neg (by simp [hdu])]

/-- Hashing a freshly inserted record appends exactly one finished row. -/
theorem hashed_insert_files (db : DB) (p : String) (m : FileMeta) (digest : String)
    (st : FileStatus) (hnp : ∀ r ∈ db.files, r.path ≠ p) :
    (set_file_hashed (insert_new_file db p m) p digest m st).files =
      db.files ++ [hashedRec db p m digest st] := by
  unfold set_file_hashed update_files_where insert_new_file
  dsimp only []
  rw [List.map_append]
  congr 1
  · trans (List.map id db.files)
    · exact List.map_congr_left (fun r hr => by simp [hnp r hr])
    · exact List.map_id _
  · simp [hashedRec, next_file_rowid]

/-- One step of the sorted scan preserves the dedup invariant. -/
theorem process_one_step (meta : String → FileMeta) (c : String → String)
    (L : List String) (p : String) (db : DB)
    (hInv : DedupInv c L db)
    (hgt : ∀ q ∈ L, q.data < p.data) :
    DedupInv c (L ++ [p])
      (process_one (fun q => some (meta q)) (fun q => Except.ok (c q)) db p) := by
  obtain ⟨hmap, hrec⟩ := hInv
  have hpnot : p ∉ L := fun hp => absurd (hgt p hp) (lt_irrefl p.data)
  have hpaths : ∀ r ∈ db.files, r.path ∈ L := by
    intro r hr
    rw [← hmap]
    exact List.mem_map_of_mem _ hr
  have hnp : ∀ r ∈ db.files, r.path ≠ p := by
    intro r hr he
    exact hpnot (he ▸ hpaths r hr)
  have hget : get_file db p = none := by
    unfold get_file
    rw [List.find?_eq_none]
    intro r hr hcon
    exact hnp r hr (of_decide_eq_true hcon)
  have hgroups : ∀ v, (db.files.filter (fun r => c r.path = v)).map (fun r => r.path) =
      groupPaths c L v := by
    intro v
    unfold groupPaths
    rw [← hmap]
    exact map_path_filter (fun q => decide (c q = v)) db.files
  have hgroup_append : ∀ v, groupPaths c (L ++ [p]) v =
      groupPaths c L v ++ if c p = v then [p] else [] := by
    intro v
    unfold groupPaths
    rw [List.filter_append]
    congr 1
    by_cases h : c p = v <;> simp [h]
  have hfiltr : find_duplicate (insert_new_file db p (meta p)) (c p) p =
      min_by_path (db.files.filter (fun r => c r.path = c p)) := by
    unfold find_duplicate
    have hfiles1 : (insert_new_file db p (meta p)).files = db.files ++
        [{ rowid := next_file_rowid db, path := p, size := some (meta p).size,
           ctime := (meta p).ctime, mtime := (meta p).mtime, sha256 := none,
           status := .new, batchId := none, targetPath := none, exifDatetime := none,
           error := none }] := rfl
    rw [hfiles1, List.filter_append]
    have h2 : List.filter (fun (r : FileRec) => decide (r.sha256 = some (c p) ∧ r.path ≠ p))
        ([{ rowid := next_file_rowid db, path := p, size := some (meta p).size,
            ctime := (meta p).ctime, mtime := (meta p).mtime, sha256 := none,
            status := .new, batchId := none, targetPath := none, exifDatetime := none,
            error := none }] : List FileRec) = [] := by simp
    rw [h2, List.append_nil]
    congr 1
    apply List.filter_congr
    intro r hr
    have h1 := (hrec r hr).1
    exact decide_eq_decide.mpr
      ⟨fun ha => Option.some.inj (h1 ▸ ha.1),
       fun hc => ⟨by rw [h1, hc], hnp r hr⟩⟩
  cases hmincase : min_by_path (db.files.filter (fun r => c r.path = c p)) with
  | none =>
    have hfd : find_duplicate (insert_new_file db p (meta p)) (c p) p = none := by
      rw [hfiltr, hmincase]
    rw [process_one_eq_unique _ _ db p (meta p) (c p) hget rfl rfl hfd]
    have hfe := hashed_insert_files db p (meta p) (c p) .unique hnp
    have hempty : db.files.filter (fun r => c r.path = c p) = [] :=
      min_by_path_eq_none.mp hmincase
    have hLempty : groupPaths c L (c p) = [] := by
      rw [← hgroups (c p), hempty]
      rfl
    constructor
    · rw [hfe, List.map_append, hmap]
      rfl
    · intro r hr
      rw [hfe] at hr
      rcases List.mem_append.mp hr with hold | hnew
      · obtain ⟨h1, h2, h3⟩ := hrec r hold
        have hrp : c r.path ≠ c p := by
          intro he
          have hmem : r ∈ db.files.filter (fun x => c x.path = c p) :=
            List.mem_filter.mpr ⟨hold, by simp [he]⟩
          rw [hempty] at hmem
          exact absurd hmem (List.not_mem_nil r)
        have hgeq : groupPaths c (L ++ [p]) (c r.path) = groupPaths c L (c r.path) := by
          rw [hgroup_append, if_neg (fun he => hrp he.symm), List.append_nil]
        exact ⟨h1, h2, by rw [hgeq]; exact h3⟩
      · rw [List.mem_singleton.mp hnew]
        refine ⟨rfl, Or.inl rfl, ?_⟩
        have hgp : groupPaths c (L ++ [p])
            (c (hashedRec db p (meta p) (c p) .unique).path) = [p] := by
          show groupPaths c (L ++ [p]) (c p) = [p]
          rw [hgroup_append, hLempty, if_pos rfl]
          rfl
        rw [hgp]
        simp [hashedRec, min_string]
  | some d =>
    have hfd : find_duplicate (insert_new_file db p (meta p)) (c p) p = some d := by
      rw [hfiltr, hmincase]
    have hdmem : d ∈ db.files.filter (fun r => c r.path = c p) := min_by_path_mem hmincase
    have hddb : d ∈ db.files := List.mem_of_mem_filter hdmem
    have hdc : c d.path = c p := by simpa using (List.mem_filter.mp hdmem).2
    have hdL : d.path ∈ L := hpaths d hddb
    have hminS : min_string (groupPaths c L (c p)) = some d.path := by
      rw [← hgroups (c p), ← min_by_path_map, hmincase]
      rfl
    have hdu : d.status = .unique := by
      have h3 := (hrec d hddb).2.2
      rw [hdc] at h3
      exact h3.mpr hminS
    rw [process_one_eq_duplicate _ _ db p (meta p) (c p) d hget rfl rfl hfd hdu]
    have hfe := hashed_insert_files db p (meta p) (c p) .duplicate hnp
    constructor
    · rw [hfe, List.map_append, hmap]
      rfl
    · intro r hr
      rw [hfe] at hr
      rcases List.mem_append.mp hr with hold | hnew
      · obtain ⟨h1, h2, h3⟩ := hrec r hold
        refine ⟨h1, h2, ?_⟩
        by_cases hrc : c r.path = c p
        · have hne : groupPaths c L (c r.path) ≠ [] := by
            apply List.ne_nil_of_mem (a := r.path)
            exact List.mem_filter.mpr ⟨hpaths r hold, by simp⟩
          have hlt : ∀ x ∈ groupPaths c L (c r.path), x.data < p.data :=
            fun x hx => hgt x (List.mem_of_mem_filter hx)
          rw [hgroup_append, if_pos hrc.symm, min_string_append_gt hlt hne]
          exact h3
        · rw [hgroup_append, if_neg (fun he => hrc he.symm), List.append_nil]
          exact h3
      · rw [List.mem_singleton.mp hnew]
        refine ⟨rfl, Or.inr rfl, ?_⟩
        constructor
        · intro h
          exact absurd h (by simp [hashedRec])
        · intro hminp
          have hgp : groupPaths c (L ++ [p])
              (c (hashedRec db p (meta p) (c p) .duplicate).path) =
              groupPaths c L (c p) ++ [p] := by
            show groupPaths c (L ++ [p]) (c p) = groupPaths c L (c p) ++ [p]
            rw [hgroup_append, if_pos rfl]
          have hne : groupPaths c L (c p) ≠ [] := by
            apply List.ne_nil_of_mem (a := d.path)
            exact List.mem_filter.mpr ⟨hdL, by simp [hdc]⟩
          have hlt : ∀ x ∈ groupPaths c L (c p), x.data < p.data :=
            fun x hx => hgt x (List.mem_of_mem_filter hx)
          rw [hgp, min_string_append_gt hlt hne, hminS] at hminp
          have hdp : d.path = p := Option.some.inj hminp
          exact (hpnot (hdp ▸ hdL)).elim

/-- Processing a sorted run of fresh paths preserves the invariant. -/
theorem process_sorted (meta : String → FileMeta) (c : String → String) :
    ∀ (L M : List String) (db : DB),
      DedupInv c M db →
      List.Sorted (fun a b : String => a.data < b.data) (M ++ L) →
      DedupInv c (M ++ L)
        (process_files (fun q => some (meta q)) (fun q => Except.ok (c q)) db L) := by
  intro L
  induction L with
  | nil =>
    intro M db hInv _
    simpa using hInv
  | cons p rest ih =>
    intro M db hInv hs
    unfold process_files
    rw [List.foldl_cons]
    have hgt : ∀ q ∈ M, q.data < p.data := by
      intro q hq
      exact (List.pairwise_append.mp hs).2.2 q hq p (List.mem_cons_self ..)
    have hstep := process_one_step meta c M p db hInv hgt
    have heq : M ++ p :: rest = (M ++ [p]) ++ rest := by simp
    rw [heq] at hs ⊢
    exact ih (M ++ [p]) _ hstep hs

/-- A second scan over already-classified paths writes nothing. -/
theorem process_files_skips (stat : String → Option FileMeta)
    (hash : String → Except String String) :
    ∀ (P : List String) (db : DB),
      (∀ p ∈ P, ∃ r, get_file db p = some r ∧ hashedStatus r.status = true) →
      process_files stat hash db P = db := by
  intro P
  induction P with
  | nil => intro db _; rfl
  | cons p rest ih =>
    intro db hall
    unfold process_files
    rw [List.foldl_cons]
    obtain ⟨r, hr, hst⟩ := hall p (List.mem_cons_self ..)
    have hone : process_one stat hash db p = db := by
      unfold process_one
      rw [hr]
      dsimp only []
      rw [hst]
      simp
    rw [hone]
    exact ih db (fun q hq => hall q (List.mem_cons_of_mem p hq))

/-- The sorted scan order is strictly increasing for distinct paths. -/
theorem sort_paths_sorted_lt (l : List String) (hnd : l.Nodup) :
    List.Sorted (fun a b : String => a.data < b.data) (sort_paths l) := by
  haveI : IsTotal String (fun a b : String => a.data ≤ b.data) :=
    ⟨fun a b => le_total a.data b.data⟩
  haveI : IsTrans String (fun a b : String => a.data ≤ b.data) :=
    ⟨fun a b d h1 h2 => le_trans h1 h2⟩
  have hle : List.Sorted (fun a b : String => a.data ≤ b.data) (sort_paths l) :=
    List.sorted_insertionSort _ l
  have hnd' : (sort_paths l).Nodup :=
    ((List.perm_insertionSort _ l).nodup_iff).mpr hnd
  exact (hle.and hnd').imp
    (fun hab => lt_of_le_of_ne hab.1 (fun he => hab.2 (String.ext he)))

/-- Sorting is presentation-order independent on duplicate-free listings. -/
theorem sort_paths_perm_eq (l l' : List String) (hperm : l'.Perm l) :
    sort_paths l' = sort_paths l := by
  haveI : IsTotal String (fun a b : String => a.data ≤ b.data) :=
    ⟨fun a b => le_total a.data b.data⟩
  haveI : IsTrans String (fun a b : String => a.data ≤ b.data) :=
    ⟨fun a b d h1 h2 => le_trans h1 h2⟩
  haveI : IsAntisymm String (fun a b : String => a.data ≤ b.data) :=
    ⟨fun a b h1 h2 => String.ext (le_antisymm h1 h2)⟩
  exact List.eq_of_perm_of_sorted
    ((List.perm_insertionSort _ l').trans (hperm.trans (List.perm_insertionSort _ l).symm))
    (List.sorted_insertionSort _ l')
    (List.sorted_insertionSort _ l)

/-- Claim C4: on a fresh store, a dedup run classifies every scanned file as
unique or duplicate with exactly one unique per content group, independently
of the presentation order of the listing (the scan sorts it), and a second
run over the same files changes nothing. -/
theorem C4_dedup_one_unique_per_group (bs : List BatchRec) (files : List String)
    (meta : String → FileMeta) (c : String → String) (hnd : files.Nodup) :
    (∀ l', l'.Perm files →
      dedup_run (fun q => some (meta q)) (fun q => Except.ok (c q)) (DB.mk [] bs) l' =
        dedup_run (fun q => some (meta q)) (fun q => Except.ok (c q)) (DB.mk [] bs) files) ∧
    (∀ r ∈ (dedup_run (fun q => some (meta q)) (fun q => Except.ok (c q))
        (DB.mk [] bs) files).files,
      (r.status = .unique ∨ r.status = .duplicate) ∧
      ∃ u ∈ (dedup_run (fun q => some (meta q)) (fun q => Except.ok (c q))
          (DB.mk [] bs) files).files,
        u.status = .unique ∧ c u.path = c r.path ∧
        ∀ u' ∈ (dedup_run (fun q => some (meta q)) (fun q => Except.ok (c q))
            (DB.mk [] bs) files).files,
          u'.status = .unique → c u'.path = c r.path → u' = u) ∧
    dedup_run (fun q => some (meta q)) (fun q => Except.ok (c q))
      (dedup_run (fun q => some (meta q)) (fun q => Except.ok (c q)) (DB.mk [] bs) files)
      files =
      dedup_run (fun q => some (meta q)) (fun q => Except.ok (c q)) (DB.mk [] bs) files := by
  have hndS : (sort_paths files).Nodup :=
    ((List.perm_insertionSort _ files).nodup_iff).mpr hnd
  have hsor := sort_paths_sorted_lt files hnd
  have hInv : DedupInv c (sort_paths files)
      (process_files (fun q => some (meta q)) (fun q => Except.ok (c q))
        (DB.mk [] bs) (sort_paths files)) := by
    have h0 : DedupInv c [] (DB.mk [] bs) :=
      ⟨rfl, fun r hr => absurd hr (List.not_mem_nil r)⟩
    have := process_sorted meta c (sort_paths files) [] (DB.mk [] bs) h0
      (by simpa using hsor)
    simpa using this
  obtain ⟨hmapS, hrecS⟩ := hInv
  refine ⟨?_, ?_, ?_⟩
  · intro l' hperm
    unfold dedup_run
    rw [sort_paths_perm_eq files l' hperm]
  · intro r hr
    refine ⟨(hrecS r hr).2.1, ?_⟩
    have hrS : r.path ∈ sort_paths files := by
      rw [← hmapS]
      exact List.mem_map_of_mem _ hr
    have hrg : r.path ∈ groupPaths c (sort_paths files) (c r.path) :=
      List.mem_filter.mpr ⟨hrS, by simp⟩
    obtain ⟨m0, hm0⟩ : ∃ m0, min_string (groupPaths c (sort_paths files) (c r.path)) =
        some m0 := by
      cases h : min_string (groupPaths c (sort_paths files) (c r.path)) with
      | none => exact absurd (min_string_eq_none.mp h ▸ hrg) (List.not_mem_nil _)
      | some m0 => exact ⟨m0, rfl⟩
    have hm0g := min_string_mem hm0
    have hm0S : m0 ∈ sort_paths files := List.mem_of_mem_filter hm0g
    have hcm0 : c m0 = c r.path := by
      have := (List.mem_filter.mp hm0g).2
      simpa using this
    rw [← hmapS] at hm0S
    obtain ⟨u, huF, hupath⟩ := List.mem_map.mp hm0S
    have hgu : groupPaths c (sort_paths files) (c u.path) =
        groupPaths c (sort_paths files) (c r.path) := by
      rw [hupath, hcm0]
    have hustat : u.status = .unique := by
      apply (hrecS u huF).2.2.mpr
      rw [hgu, hm0, hupath]
    refine ⟨u, huF, hustat, by rw [hupath]; exact hcm0, ?_⟩
    intro u' hu' hst hcu
    have h1 := ((hrecS u' hu').2.2).mp hst
    have hgu' : groupPaths c (sort_paths files) (c u'.path) =
        groupPaths c (sort_paths files) (c r.path) := by rw [hcu]
    rw [hgu', hm0] at h1
    have hpath : u'.path = u.path := by
      rw [hupath]
      exact (Option.some.inj h1).symm
    have hndmap : ((dedup_run (fun q => some (meta q)) (fun q => Except.ok (c q))
        (DB.mk [] bs) files).files.map (fun x => x.path)).Nodup := by
      have hEq : ((dedup_run (fun q => some (meta q)) (fun q => Except.ok (c q))
          (DB.mk [] bs) files).files.map (fun x => x.path)) = sort_paths files := hmapS
      rw [hEq]
      exact hndS
    exact List.inj_on_of_nodup_map hndmap hu' huF hpath
  · show process_files _ _ _ (sort_paths files) = _
    apply process_files_skips
    intro p hp
    rw [← hmapS] at hp
    obtain ⟨r0, hr0, hr0p⟩ := List.mem_map.mp hp
    obtain ⟨r1, hfind⟩ : ∃ r1,
        (dedup_run (fun q => some (meta q)) (fun q => Except.ok (c q))
          (DB.mk [] bs) files).files.find? (fun x => x.path = p) = some r1 := by
      cases h : (dedup_run (fun q => some (meta q)) (fun q => Except.ok (c q))
          (DB.mk [] bs) files).files.find? (fun x => x.path = p) with
      | none =>
        exact absurd (List.find?_eq_none.mp h r0 hr0 : ¬ _)
          (by simp [hr0p])
      | some r1 => exact ⟨r1, rfl⟩
    refine ⟨r1, hfind, ?_⟩
    rcases (hrecS r1 (List.mem_of_find?_eq_some hfind)).2.1 with h | h <;>
      simp [hashedStatus, h]

/-- Witness for C4: three files, two byte-identical, one unique. -/
theorem C4_dedup_one_unique_per_group_witness :
    exFiles.Nodup ∧
      ((∀ l', l'.Perm exFiles →
        dedup_run (fun q => some (exMeta q)) (fun q => Except.ok (exContent q))
            (DB.mk [] []) l' =
          dedup_run (fun q => some (exMeta q)) (fun q => Except.ok (exContent q))
            (DB.mk [] []) exFiles) ∧
      (∀ r ∈ (dedup_run (fun q => some (exMeta q)) (fun q => Except.ok (exContent q))
          (DB.mk [] []) exFiles).files,
        (r.status = .unique ∨ r.status = .duplicate) ∧
        ∃ u ∈ (dedup_run (fun q => some (exMeta q)) (fun q => Except.ok (exContent q))
            (DB.mk [] []) exFiles).files,
          u.status = .unique ∧ exContent u.path = exContent r.path ∧
          ∀ u' ∈ (dedup_run (fun q => some (exMeta q)) (fun q => Except.ok (exContent q))
              (DB.mk [] []) exFiles).files,
            u'.status = .unique → exContent u'.path = exContent r.path → u' = u) ∧
      dedup_run (fun q => some (exMeta q)) (fun q => Except.ok (exContent q))
        (dedup_run (fun q => some (exMeta q)) (fun q => Except.ok (exContent q))
          (DB.mk [] []) exFiles)
        exFiles =
        dedup_run (fun q => some (exMeta q)) (fun q => Except.ok (exContent q))
          (DB.mk [] []) exFiles) :=
  ⟨by decide, C4_dedup_one_unique_per_group [] exFiles exMeta exContent (by decide)⟩

end MediaPipeline
